import Mathlib

/-!
Shallow embedding of the Form_Summary repository (files `extractor.py` and
`summary.py`): the field-mapping/filtering pipeline, duplicate-field
consolidation, text-based context inference, LLM-ready document assembly, and
the downstream summary formatter.  Python strings are modelled as Lean
`String` (reasoned about through their `List Char` data), Python dicts as
ordered association lists with Python's insertion semantics (update in place
when the key exists, append otherwise), and Python regular expressions by
hand-rolled matchers that implement the exact search semantics of the
patterns appearing in the source (leftmost match, lazy `.*?` with `.` not
matching a newline, greedy `{1,2}` with backtracking, `IGNORECASE` realised
by lowering the subject text, as all pattern literals are lower-case ASCII).
-/

namespace FormSummary

/-! ### Character and string helpers (Python `str` semantics) -/

/-- Python whitespace characters recognised by `str.strip()` / `str.split()`. -/
def isSpaceChar (c : Char) : Bool :=
  c = ' ' || c = '\t' || c = '\n' || c = '\r' || c = '\x0b' || c = '\x0c'

/-- ASCII decimal digit, the `\d` class for the inputs this program handles. -/
def isDigitC (c : Char) : Bool :=
  '0' ≤ c && c ≤ '9'

/-- The separator character class (slash or hyphen) of the AGM date regex. -/
def isSepC (c : Char) : Bool :=
  c = '/' || c = '-'

/-- `str.lower()` on character data (ASCII-faithful). -/
def lowerL (l : List Char) : List Char :=
  l.map Char.toLower

/-- `str.lower()`. -/
def strLower (s : String) : String :=
  ⟨lowerL s.data⟩

/-- `str.strip()` on character data. -/
def trimL (l : List Char) : List Char :=
  ((l.dropWhile isSpaceChar).reverse.dropWhile isSpaceChar).reverse

/-- `str.strip()`. -/
def strTrim (s : String) : String :=
  ⟨trimL s.data⟩

/-- Bool test for `pat` being a contiguous prefix of `l`. -/
def isPfxL : List Char → List Char → Bool
  | [], _ => true
  | _ :: _, [] => false
  | a :: pa, b :: lb => a == b && isPfxL pa lb

/-- Python `pat in s` on character data: `pat` occurs contiguously in `l`. -/
def containsSubL (pat : List Char) : List Char → Bool
  | [] => isPfxL pat []
  | a :: rest => isPfxL pat (a :: rest) || containsSubL pat rest

/-- Python `s.endswith(suf)`. -/
def strEndsWith (s suf : String) : Bool :=
  decide (suf.data <:+ s.data)

/-- Python `s[:-4]` (for the `_alt` suffix removal in field consolidation). -/
def strDropRight4 (s : String) : String :=
  ⟨s.data.take (s.data.length - 4)⟩

/-- Worker for whitespace splitting: `acc` holds the current word reversed. -/
def splitWsAux : List Char → List Char → List (List Char)
  | [], acc => if acc.isEmpty then [] else [acc.reverse]
  | c :: rest, acc =>
    if isSpaceChar c then
      if acc.isEmpty then splitWsAux rest []
      else acc.reverse :: splitWsAux rest []
    else splitWsAux rest (c :: acc)

/-- Python `s.split()` (no argument): split on whitespace runs, no empty parts. -/
def splitWsL (l : List Char) : List (List Char) :=
  splitWsAux l []

/-- Python `s.split(',')` on character data (keeps empty parts). -/
def splitCommaL : List Char → List (List Char)
  | [] => [[]]
  | c :: rest =>
    if c = ',' then [] :: splitCommaL rest
    else
      match splitCommaL rest with
      | [] => [[c]]
      | g :: gs => (c :: g) :: gs

/-! ### Python dict model

An ordered association list with Python's `d[k] = v` semantics: an existing
key is updated in place, a new key is appended.  Dicts built by the program
always have pairwise-distinct keys (`keysNodup`). -/

abbrev Dict := List (String × String)

/-- Python `k in d`. -/
def Dict.containsKey (d : Dict) (k : String) : Bool :=
  d.any (fun p => p.1 == k)

/-- Python `d[k] = v`. -/
def Dict.insert (d : Dict) (k v : String) : Dict :=
  if d.containsKey k then d.map (fun p => if p.1 == k then (k, v) else p)
  else d ++ [(k, v)]

/-- Python `d.get(k)` (as `Option`). -/
def Dict.get? (d : Dict) (k : String) : Option String :=
  (d.find? (fun p => p.1 == k)).map (·.2)

/-- Python `d.get(k, dflt)`. -/
def Dict.getD (d : Dict) (k dflt : String) : String :=
  (d.get? k).getD dflt

/-- The Python-dict invariant: keys are pairwise distinct. -/
def Dict.keysNodup (d : Dict) : Prop :=
  (d.map Prod.fst).Nodup

/-! ### Field Mapper (`Extractor.__init__` / `clean_and_map_form_fields`) -/

/-- The static `self.field_mapping` table from `Extractor.__init__`. -/
def field_mapping : Dict := [
  ("CIN_C", "company_cin"),
  ("CompanyName_C", "company_name"),
  ("EmailId_C", "company_email"),
  ("GLN_C", "company_gln"),
  ("permaddress1a_C", "company_address_line1"),
  ("permaddress2a_C", "company_address_line2"),
  ("permaddress2b_C", "company_address_line2_alt"),
  ("permaddress3a_C", "company_address_line3"),
  ("cityname_C", "company_city"),
  ("City_C", "company_city_alt"),
  ("pincode_C", "company_pincode"),
  ("Pin_C", "company_pincode_alt"),
  ("statename_C", "company_state"),
  ("State_P", "company_state_alt"),
  ("countryname_C", "company_country"),
  ("Country_C", "company_country_alt"),
  ("PAN_C", "auditor_pan"),
  ("NameAuditorFirm_C", "auditor_firm_name"),
  ("MemberShNum", "auditor_membership_number"),
  ("AuditorNumber", "number_of_auditors"),
  ("auditoraddress1a_C", "auditor_address_line1"),
  ("auditoraddress2a_C", "auditor_address_line2"),
  ("auditoraddress3a_C", "auditor_address_line3"),
  ("auditorcityname_C", "auditor_city"),
  ("auditorpincode_C", "auditor_pincode"),
  ("auditorstatename_C", "auditor_state"),
  ("auditorcountryname_C", "auditor_country"),
  ("auditoremailid_C", "auditor_email"),
  ("email", "auditor_email_alt"),
  ("appointmentdate_C", "appointment_date"),
  ("agmdate_C", "agm_date"),
  ("DateAnnualGenMeet_D", "agm_date_alt"),
  ("periodfrom_C", "period_from"),
  ("periodto_C", "period_to"),
  ("DateOfAccAuditedFrom_D", "audit_period_from"),
  ("DateOfAccAuditedTo_D", "audit_period_to"),
  ("nofinyears_C", "number_of_financial_years"),
  ("NumOfFinanYearApp", "number_of_financial_years_alt"),
  ("CurrDate", "current_date"),
  ("current_date", "form_date"),
  ("DateOfAppSect_D", "appointment_section_date"),
  ("DateReceipt_D", "receipt_date"),
  ("DINOfDir_C", "director_din"),
  ("ResoNum", "resolution_number"),
  ("serialNumber", "certificate_serial_number"),
  ("Attachment_C", "attachments")]

/-- The reserved substrings of the system/hidden-field filter. -/
def blocklist : List String :=
  ["hidden", "sid", "call_id", "form_id", "version", "reader", "sign"]

/-- `re.sub(r'\[\d+\]$', '', field_name)`: strip one trailing `[digits]`. -/
def stripArrayIndex (s : String) : String :=
  match s.data.reverse with
  | ']' :: rest =>
    let digits := rest.takeWhile isDigitC
    match digits, rest.drop digits.length with
    | _ :: _, '[' :: rem => ⟨rem.reverse⟩
    | _, _ => s
  | _ => s

/-- The blocklist test of `clean_and_map_form_fields`:
`any(x in clean_field_name.lower() for x in [...])`. -/
def isBlockedName (name : String) : Bool :=
  blocklist.any (fun x => containsSubL x.data (lowerL name.data))

/-- One iteration of the loop body of `clean_and_map_form_fields`. -/
def cleanStep (acc : Dict) (p : String × String) : Dict :=
  if strTrim p.2 = "" then acc
  else
    let clean_field_name := stripArrayIndex p.1
    let mapped_name := (field_mapping.get? clean_field_name).getD clean_field_name
    let clean_value := strTrim p.2
    if isBlockedName clean_field_name then acc
    else acc.insert mapped_name clean_value

/-- `Extractor.clean_and_map_form_fields`.  The Python guard
`if not field_value or not str(field_value).strip(): continue` is equivalent
to skipping exactly when the stripped value is empty. -/
def clean_and_map_form_fields (form_fields : Dict) : Dict :=
  form_fields.foldl cleanStep []

/-! ### Field Consolidator (`consolidate_duplicate_fields`) -/

/-- One iteration of the partitioning loop of `consolidate_duplicate_fields`:
alt entries go (keyed by their base name) into the second dict, the rest into
the first. -/
def splitStep (acc : Dict × Dict) (p : String × String) : Dict × Dict :=
  if strEndsWith p.1 "_alt" then (acc.1, acc.2.insert (strDropRight4 p.1) p.2)
  else (acc.1.insert p.1 p.2, acc.2)

/-- One iteration of the merging loop: `if base_field not in consolidated or
not consolidated[base_field]: consolidated[base_field] = alt_value`. -/
def altStep (cons : Dict) (p : String × String) : Dict :=
  match cons.get? p.1 with
  | none => cons.insert p.1 p.2
  | some v => if v = "" then cons.insert p.1 p.2 else cons

/-- `Extractor.consolidate_duplicate_fields`. -/
def consolidate_duplicate_fields (cleaned_fields : Dict) : Dict :=
  let split := cleaned_fields.foldl splitStep ([], [])
  split.2.foldl altStep split.1

/-! ### Context Inferencer (`extract_contextual_information`)

The AGM rule is the regex search
`re.search(r'annual general meeting.*?(DATE)', raw_text, re.IGNORECASE)` with
`DATE` the group `\d{1,2} SEP \d{1,2} SEP \d{4} (SEP the separator class)` (ASCII digits; slash or
hyphen separators, chosen independently).  Its exact search semantics are
embedded below: the subject is the lowered text (all pattern literals are
lower-case ASCII, so `IGNORECASE` reduces to that), start positions are
tried left to right, the lazy `.*?` consumes as little as possible and its
`.` does not match a newline, and each `\d{1,2}` is greedy with
backtracking.  The returned list is the captured group. -/

/-- Match the 4-digit year `\d{4}` at the head; the pattern ends here, so any
tail is accepted. -/
def matchYear : List Char → Option (List Char)
  | y1 :: y2 :: y3 :: y4 :: _ =>
    if isDigitC y1 && isDigitC y2 && isDigitC y3 && isDigitC y4 then
      some [y1, y2, y3, y4]
    else none
  | _ => none

/-- Match `SEP \d{4}` at the head. -/
def matchSepYear : List Char → Option (List Char)
  | s :: rest => if isSepC s then (matchYear rest).map (s :: ·) else none
  | [] => none

/-- Match `\d{1,2}SEP \d{4}` at the head (second day/month group then
separator and year), greedy on the `{1,2}` with backtracking. -/
def matchD2SepYear : List Char → Option (List Char)
  | a :: b :: rest =>
    if isDigitC a then
      if isDigitC b then
        match matchSepYear rest with
        | some t => some (a :: b :: t)
        | none => (matchSepYear (b :: rest)).map (a :: ·)
      else (matchSepYear (b :: rest)).map (a :: ·)
    else none
  | [_] => none
  | [] => none

/-- Match `SEP \d{1,2} SEP \d{4}` at the head. -/
def matchSepRest : List Char → Option (List Char)
  | s :: rest => if isSepC s then (matchD2SepYear rest).map (s :: ·) else none
  | [] => none

/-- Match the whole date group `\d{1,2} SEP \d{1,2} SEP \d{4} (SEP the separator class)` at the head,
greedy on the first `{1,2}` with backtracking. -/
def matchDate : List Char → Option (List Char)
  | a :: b :: rest =>
    if isDigitC a then
      if isDigitC b then
        match matchSepRest rest with
        | some t => some (a :: b :: t)
        | none => (matchSepRest (b :: rest)).map (a :: ·)
      else (matchSepRest (b :: rest)).map (a :: ·)
    else none
  | [_] => none
  | [] => none

/-- The lazy gap `.*?` followed by the date group: try the date at the
current position first; on failure consume one non-newline character into
the gap and retry (`.` does not match `\n` without `re.DOTALL`). -/
def findDateLazy : List Char → Option (List Char)
  | [] => none
  | c :: rest =>
    match matchDate (c :: rest) with
    | some d => some d
    | none => if c = '\n' then none else findDateLazy rest

/-- The literal part `annual general meeting` of the AGM pattern. -/
def agmPhrase : List Char := "annual general meeting".data

/-- `re.search` for the AGM pattern over (lowered) character data: try each
start position left to right; where the literal phrase matches, look for the
lazily-reached date group after it, otherwise (or if no date completes the
match from this start) move one position right. -/
def searchAGM : List Char → Option (List Char)
  | [] => none
  | c :: rest =>
    if isPfxL agmPhrase (c :: rest) then
      match findDateLazy ((c :: rest).drop agmPhrase.length) with
      | some d => some d
      | none => searchAGM rest
    else searchAGM rest

/-- The record of inferred facts built by `extract_contextual_information`.
Keys the Python dict only sometimes sets are `Option` fields. -/
structure ContextFacts where
  appointment_type : String
  company_type : Option String
  regulatory_sections : List String
  agm_conducted : Bool
  agm_date : Option String
  auditor_qualification : Option String
  joint_auditors : Bool
deriving DecidableEq, Repr

/-- `Extractor.extract_contextual_information`.  Every other pattern in the
function is a lower-case literal, so each `re.search(..., re.IGNORECASE)`
presence test is containment in the lowered text. -/
def extract_contextual_information (raw_text : String) : ContextFacts :=
  let lt := lowerL raw_text.data
  { appointment_type :=
      if containsSubL "first appointment".data lt then "First Appointment"
      else if containsSubL "reappointment".data lt then "Reappointment"
      else if containsSubL "casual vacancy".data lt then "Casual Vacancy"
      else "Unknown"
    company_type :=
      if containsSubL "private limited".data lt then some "Private Limited Company"
      else if containsSubL "public limited".data lt then some "Public Limited Company"
      else if containsSubL "one person company".data lt then some "One Person Company"
      else none
    regulatory_sections :=
      (if containsSubL "section 139".data lt then
        ["Section 139 - Appointment of Auditors"] else []) ++
      (if containsSubL "section 140".data lt then
        ["Section 140 - Removal of Auditors"] else [])
    agm_conducted := (searchAGM lt).isSome
    agm_date := (searchAGM lt).map (fun l => (⟨l⟩ : String))
    auditor_qualification :=
      if containsSubL "chartered accountant".data lt then
        some "Chartered Accountant"
      else none
    joint_auditors := containsSubL "joint auditor".data lt }

/-! ### Document Assembler (`create_llm_ready_summary_data` and helpers) -/

/-- The `summary_context` object of the assembled document. -/
structure SummaryContext where
  purpose : String
  legal_framework : String
  appointment_nature : String
  compliance_sections : List String
deriving DecidableEq, Repr

/-- The `company_information` object of the assembled document. -/
structure CompanyInformation where
  name : String
  cin : String
  type : String
  email : String
  address : String
  state : String
  pincode : String
deriving DecidableEq, Repr

/-- The `auditor_information` object of the assembled document. -/
structure AuditorInformation where
  firm_name : String
  pan : String
  membership_number : String
  email : String
  address : String
  qualification : String
  number_of_auditors : String
  joint_appointment : Bool
deriving DecidableEq, Repr

/-- The `appointment_details` object of the assembled document. -/
structure AppointmentDetails where
  appointment_date : String
  audit_period_start : String
  audit_period_end : String
  financial_years_count : String
  agm_date : String
  agm_conducted : Bool
  resolution_number : String
  director_din : String
deriving DecidableEq, Repr

/-- The `compliance_information` object of the assembled document. -/
structure ComplianceInformation where
  form_filing_date : String
  receipt_date : String
  certificate_serial : String
  attachments : List String
  digital_signature : String
deriving DecidableEq, Repr

/-- The `summary_template` object (four constant template strings). -/
structure SummaryTemplate where
  executive_summary : String
  key_parties : String
  timeline : String
  compliance_status : String
deriving DecidableEq, Repr

/-- The assembled LLM-ready document (`llm_data` in the source). -/
structure LlmData where
  document_type : String
  summary_context : SummaryContext
  company_information : CompanyInformation
  auditor_information : AuditorInformation
  appointment_details : AppointmentDetails
  compliance_information : ComplianceInformation
  key_narrative_points : List String
  summary_template : SummaryTemplate
deriving DecidableEq, Repr

/-- `Extractor._build_address`: address lines 1-3 (present and truthy), then
city, state, pincode (truthy), joined by a comma-space; the sentinel when
nothing is present. -/
def build_address (fields : Dict) (pfx : String) : String :=
  let line := fun (i : String) =>
    match fields.get? (pfx ++ "_address_line" ++ i) with
    | some v => if v = "" then [] else [v]
    | none => []
  let opt := fun (k : String) =>
    let v := fields.getD (pfx ++ k) ""
    if v = "" then [] else [v]
  let address_parts :=
    line "1" ++ line "2" ++ line "3" ++ opt "_city" ++ opt "_state" ++ opt "_pincode"
  if address_parts.isEmpty then "Not specified"
  else String.intercalate ", " address_parts

/-- `Extractor._parse_attachments`: split on commas, strip each piece, drop
the falsy (empty) ones. -/
def parse_attachments (attachments_str : String) : List String :=
  if attachments_str = "" then []
  else
    ((splitCommaL attachments_str.data).map (fun l => strTrim ⟨l⟩)).filter
      (fun x => x ≠ "")

/-- Python truthiness of `fields.get(k)`: a present, non-empty value. -/
def truthyGet (fields : Dict) (k : String) : Bool :=
  match fields.get? k with
  | some v => v ≠ ""
  | none => false

/-- `Extractor._extract_narrative_points`.  `raw_text` is a parameter in the
source but unused in the body.  Note `context['appointment_type']` is always
set and non-empty (at least `'Unknown'`), so the second point always fires. -/
def extract_narrative_points (fields : Dict) (context : ContextFacts)
    (_raw_text : String) : List String :=
  (if truthyGet fields "company_name" then
    ["The company " ++ fields.getD "company_name" "" ++ " has appointed an auditor"]
  else []) ++
  (if context.appointment_type ≠ "" then
    ["This is a " ++ strLower context.appointment_type]
  else []) ++
  (if truthyGet fields "auditor_firm_name" then
    ["The appointed auditor is " ++ fields.getD "auditor_firm_name" ""]
  else []) ++
  (if context.joint_auditors then ["Joint auditors have been appointed"] else []) ++
  (if truthyGet fields "audit_period_from" && truthyGet fields "audit_period_to" then
    ["Audit period is from " ++ fields.getD "audit_period_from" "" ++ " to " ++
      fields.getD "audit_period_to" ""]
  else []) ++
  (if truthyGet fields "number_of_financial_years" then
    ["Appointment covers " ++ fields.getD "number_of_financial_years" "" ++
      " financial year(s)"]
  else []) ++
  (if context.agm_conducted &&
      (match context.agm_date with | some s => s ≠ "" | none => false) then
    ["Annual General Meeting was conducted on " ++
      (context.agm_date.getD "")]
  else []) ++
  (if truthyGet fields "form_date" then
    ["Form was filed on " ++ fields.getD "form_date" ""]
  else [])

/-- The body of `create_llm_ready_summary_data` after the context record has
been computed (the source computes `context = self.extract_contextual_information(raw_text)`
and then builds this literal structure). -/
def create_llm_data_with_context (fields : Dict) (context : ContextFacts)
    (raw_text : String) : LlmData :=
  { document_type := "ADT-1 Form - Notice of Auditor Appointment"
    summary_context :=
      { purpose := "This document notifies the Registrar of Companies about the appointment of an auditor"
        legal_framework := "Filed under the Companies Act, 2013"
        appointment_nature := context.appointment_type
        compliance_sections := context.regulatory_sections }
    company_information :=
      { name := fields.getD "company_name" "Not specified"
        cin := fields.getD "company_cin" "Not specified"
        type := context.company_type.getD "Not specified"
        email := fields.getD "company_email" "Not specified"
        address := build_address fields "company"
        state := fields.getD "company_state" "Not specified"
        pincode := fields.getD "company_pincode" "Not specified" }
    auditor_information :=
      { firm_name := fields.getD "auditor_firm_name" "Not specified"
        pan := fields.getD "auditor_pan" "Not specified"
        membership_number := fields.getD "auditor_membership_number" "Not specified"
        email := fields.getD "auditor_email" "Not specified"
        address := build_address fields "auditor"
        qualification := context.auditor_qualification.getD "Not specified"
        number_of_auditors := fields.getD "number_of_auditors" "1"
        joint_appointment := context.joint_auditors }
    appointment_details :=
      { appointment_date := fields.getD "appointment_date" "Not specified"
        audit_period_start := fields.getD "audit_period_from" "Not specified"
        audit_period_end := fields.getD "audit_period_to" "Not specified"
        financial_years_count := fields.getD "number_of_financial_years" "Not specified"
        agm_date := fields.getD "agm_date" (context.agm_date.getD "Not specified")
        agm_conducted := context.agm_conducted
        resolution_number := fields.getD "resolution_number" "Not specified"
        director_din := fields.getD "director_din" "Not specified" }
    compliance_information :=
      { form_filing_date := fields.getD "form_date" (fields.getD "current_date" "Not specified")
        receipt_date := fields.getD "receipt_date" "Not specified"
        certificate_serial := fields.getD "certificate_serial_number" "Not specified"
        attachments := parse_attachments (fields.getD "attachments" "")
        digital_signature :=
          if fields.any (fun p => containsSubL "sign".data (lowerL p.1.data)) then
            "Present"
          else "Not verified" }
    key_narrative_points := extract_narrative_points fields context raw_text
    summary_template :=
      { executive_summary := "This ADT-1 form represents the {appointment_nature} of {auditor_firm_name} as auditor for {company_name} (CIN: {company_cin}) for the financial period from {audit_period_start} to {audit_period_end}."
        key_parties := "Company: {company_name}, Auditor: {auditor_firm_name}"
        timeline := "Appointment effective from {appointment_date}, covering {financial_years_count} financial year(s)"
        compliance_status := "Form filed on {form_filing_date} with certificate serial {certificate_serial}" } }

/-- `Extractor.create_llm_ready_summary_data`. -/
def create_llm_ready_summary_data (fields : Dict) (raw_text : String) : LlmData :=
  create_llm_data_with_context fields (extract_contextual_information raw_text) raw_text

/-! ### Downstream summary formatter (`summary.py`, `Summary.generate_summary`)

`generate_summary` loads a JSON document and indexes into it with no
defaulting.  The JSON values the loader can produce for this pipeline are
strings, booleans, arrays and objects, modelled by `JVal`.  Python raises
`KeyError`/`TypeError`/`IndexError`/`AttributeError` on bad accesses; the
model returns `Except.error` with a label naming the exception.  F-string
interpolation of a value never fails; `pyStr` is Python's `str()` for these
values (dict/list rendering uses `repr` of the elements; string `repr` is
modelled as plain single-quoting, which is exact for quote- and escape-free
strings, the only ones any theorem below touches). -/

/-- JSON values (as loaded by `json.load` for this pipeline's documents). -/
inductive JVal where
  | str : String → JVal
  | bool : Bool → JVal
  | list : List JVal → JVal
  | obj : List (String × JVal) → JVal

/-- Key lookup in a JSON object member list. -/
def jlookup (kvs : List (String × JVal)) (k : String) : Option JVal :=
  (kvs.find? (fun p => p.1 == k)).map (·.2)

/-- Python `v[k]` for a string key: a dict lookup, `KeyError` when the key is
absent, `TypeError` on any non-dict. -/
def JVal.getItem : JVal → String → Except String JVal
  | .obj kvs, k =>
    match jlookup kvs k with
    | some v => .ok v
    | none => .error ("KeyError: " ++ k)
  | _, _ => .error "TypeError: value is not subscriptable by a string key"

/-- Python `v[0]`: first element of a list (`IndexError` when empty), first
character of a string (`IndexError` when empty), `TypeError` otherwise
(a JSON object has no integer keys, so indexing it errors as well). -/
def JVal.getIdx0 : JVal → Except String JVal
  | .list [] => .error "IndexError: list index out of range"
  | .list (x :: _) => .ok x
  | .str s =>
    match s.data with
    | [] => .error "IndexError: string index out of range"
    | c :: _ => .ok (.str ⟨[c]⟩)
  | _ => .error "TypeError: value is not subscriptable by an integer"

/-- Python `v.lower()`: only strings have the method. -/
def JVal.lowerE : JVal → Except String String
  | .str s => .ok (strLower s)
  | _ => .error "AttributeError: lower"

/-- Python `v.split()` for the filing date: only strings have the method. -/
def JVal.strE : JVal → Except String String
  | .str s => .ok s
  | _ => .error "AttributeError: split"

/-- `compliance['form_filing_date'].split()[0]` once the value is a string:
`IndexError` when the string is empty or whitespace-only. -/
def firstTokE (s : String) : Except String String :=
  match splitWsL s.data with
  | [] => .error "IndexError: list index out of range"
  | t :: _ => .ok ⟨t⟩

/-- Python truthiness of a JSON value (for the `'joint ' if ... else ''`
conditional). -/
def JVal.truthy : JVal → Bool
  | .str s => s ≠ ""
  | .bool b => b
  | .list l => !l.isEmpty
  | .obj kvs => !kvs.isEmpty

mutual
/-- Python `str()` of a JSON-loaded value, as interpolated by an f-string. -/
def pyStr : JVal → String
  | .str s => s
  | .bool b => if b then "True" else "False"
  | .list l => "[" ++ String.intercalate ", " (pyReprs l) ++ "]"
  | .obj kvs => "\x7b" ++ String.intercalate ", " (pyReprKVs kvs) ++ "\x7d"

/-- Python `repr()` of a JSON-loaded value (string quoting simplified). -/
def pyRepr : JVal → String
  | .str s => "'" ++ s ++ "'"
  | .bool b => if b then "True" else "False"
  | .list l => "[" ++ String.intercalate ", " (pyReprs l) ++ "]"
  | .obj kvs => "\x7b" ++ String.intercalate ", " (pyReprKVs kvs) ++ "\x7d"

/-- `repr` of each element of a list. -/
def pyReprs : List JVal → List String
  | [] => []
  | v :: vs => pyRepr v :: pyReprs vs

/-- `'key': repr(value)` members of a dict. -/
def pyReprKVs : List (String × JVal) → List String
  | [] => []
  | (k, v) :: kvs => ("'" ++ k ++ "': " ++ pyRepr v) :: pyReprKVs kvs
end

/-- `Summary.generate_summary` on the already-loaded JSON document: the
sequence of accesses in Python statement order (the section lookups, the
filing-date extraction, then the f-string pieces left to right), each a hard
error if it fails, and the fixed template filled in on success. -/
def generate_summary (data : JVal) : Except String String := do
  let structured_data ← data.getItem "structured_data"
  let company ← structured_data.getItem "company_information"
  let auditor ← structured_data.getItem "auditor_information"
  let appointment ← structured_data.getItem "appointment_details"
  let compliance ← structured_data.getItem "compliance_information"
  let context ← structured_data.getItem "summary_context"
  let ffd ← compliance.getItem "form_filing_date"
  let ffdStr ← ffd.strE
  let filing_date ← firstTokE ffdStr
  let name ← company.getItem "name"
  let cin ← company.getItem "cin"
  let firm ← auditor.getItem "firm_name"
  let pan ← auditor.getItem "pan"
  let nature ← context.getItem "appointment_nature"
  let natureLower ← nature.lowerE
  let aps ← appointment.getItem "audit_period_start"
  let ape ← appointment.getItem "audit_period_end"
  let fyc ← appointment.getItem "financial_years_count"
  let joint ← auditor.getItem "joint_appointment"
  let sections ← context.getItem "compliance_sections"
  let sec0 ← sections.getIdx0
  let serial ← compliance.getItem "certificate_serial"
  pure (pyStr name ++ " (CIN: " ++ pyStr cin ++ ") has appointed " ++
    pyStr firm ++ " (PAN: " ++ pyStr pan ++ ") as auditors to fill a " ++
    natureLower ++ " . The appointment covers an audit period from " ++
    pyStr aps ++ " to " ++ pyStr ape ++ ", spanning " ++ pyStr fyc ++
    " financial years. This " ++ (if joint.truthy then "joint " else "") ++
    "appointment was formalized under " ++ pyStr sec0 ++
    " of the Companies Act, 2013, with the form filed on " ++ filing_date ++
    " (Certificate Serial: " ++ pyStr serial ++ ").")

/-! ### Generic lemmas about the dict and substring helpers -/

/-- Fold invariant preservation. -/
theorem foldl_preserve {α β : Type} (step : β → α → β) (P : β → Prop)
    (hstep : ∀ acc x, P acc → P (step acc x)) :
    ∀ (l : List α) (acc : β), P acc → P (l.foldl step acc)
  | [], _, h => h
  | x :: l, acc, h => foldl_preserve step P hstep l (step acc x) (hstep acc x h)

/-- Members of `d.insert k v` are the new pair or members of `d`. -/
theorem mem_insert {d : Dict} {k v : String} {p : String × String}
    (h : p ∈ Dict.insert d k v) : p = (k, v) ∨ p ∈ d := by
  unfold Dict.insert at h
  split at h
  · obtain ⟨q, hq, hqe⟩ := List.mem_map.1 h
    cases hk : (q.1 == k)
    · rw [if_neg (by simp [hk])] at hqe
      exact Or.inr (hqe ▸ hq)
    · rw [if_pos (by simp [hk])] at hqe
      exact Or.inl hqe.symm
  · rcases List.mem_append.1 h with h' | h'
    · exact Or.inr h'
    · exact Or.inl (List.mem_singleton.1 h')

/-- The overwrite map of `insert` does not change the keys. -/
theorem map_overwrite_fst (d : Dict) (k v : String) :
    (d.map (fun p => if p.1 == k then (k, v) else p)).map Prod.fst
      = d.map Prod.fst := by
  rw [List.map_map]
  refine List.map_congr_left (fun p _ => ?_)
  show (if p.1 == k then (k, v) else p).1 = p.1
  cases hk : (p.1 == k)
  · rw [if_neg (by simp [hk])]
  · rw [if_pos (by simp [hk])]
    exact (eq_of_beq hk).symm

/-- `insert` preserves distinctness of keys. -/
theorem keysNodup_insert {d : Dict} (h : d.keysNodup) (k v : String) :
    (Dict.insert d k v).keysNodup := by
  unfold Dict.insert
  split
  · unfold Dict.keysNodup
    rw [map_overwrite_fst]
    exact h
  · next hc =>
    unfold Dict.keysNodup
    rw [List.map_append]
    refine List.Nodup.append h (by simp) ?_
    intro a ha hb
    simp only [List.map_cons, List.map_nil, List.mem_singleton] at hb
    subst hb
    obtain ⟨p, hp, hpk⟩ := List.mem_map.1 ha
    exact hc (List.any_eq_true.2 ⟨p, hp, by simp [hpk]⟩)

/-- `find?` for the inserted key on the overwrite map. -/
theorem find?_overwrite_self (d : Dict) (k v : String) :
    List.find? (fun p => p.1 == k) (d.map (fun p => if p.1 == k then (k, v) else p))
      = (List.find? (fun p => p.1 == k) d).map (fun _ => (k, v)) := by
  induction d with
  | nil => rfl
  | cons q d ih =>
    cases hqk : (q.1 == k)
    · simp only [List.map_cons]
      rw [if_neg (by simp [hqk])]
      rw [List.find?_cons_of_neg _ (by simp [hqk]), List.find?_cons_of_neg _ (by simp [hqk])]
      exact ih
    · simp only [List.map_cons]
      rw [if_pos (by simp [hqk])]
      rw [List.find?_cons_of_pos _ (by simp), List.find?_cons_of_pos _ (by simp [hqk])]
      rfl

/-- `find?` for a different key on the overwrite map. -/
theorem find?_overwrite_ne (d : Dict) {k kp : String} (v : String) (hne : kp ≠ k) :
    List.find? (fun p => p.1 == kp) (d.map (fun p => if p.1 == k then (k, v) else p))
      = List.find? (fun p => p.1 == kp) d := by
  induction d with
  | nil => rfl
  | cons q d ih =>
    cases hqk : (q.1 == k)
    · simp only [List.map_cons]
      rw [if_neg (by simp [hqk])]
      cases hq : (q.1 == kp)
      · rw [List.find?_cons_of_neg _ (by simp [hq]), List.find?_cons_of_neg _ (by simp [hq])]
        exact ih
      · rw [List.find?_cons_of_pos _ (by simp [hq]), List.find?_cons_of_pos _ (by simp [hq])]
    · simp only [List.map_cons]
      rw [if_pos (by simp [hqk])]
      have h1 : (k == kp) = false := by
        cases h : (k == kp)
        · rfl
        · exact absurd (eq_of_beq h) (fun e => hne e.symm)
      have h2 : (q.1 == kp) = false := by
        cases h : (q.1 == kp)
        · rfl
        · have : k = kp := (eq_of_beq hqk).symm.trans (eq_of_beq h)
          exact absurd this (fun e => hne e.symm)
      rw [List.find?_cons_of_neg _ (by simp [h1]), List.find?_cons_of_neg _ (by simp [h2])]
      exact ih

/-- `containsKey` is definedness of `get?`. -/
theorem containsKey_eq_isSome_get? (d : Dict) (k : String) :
    d.containsKey k = (d.get? k).isSome := by
  unfold Dict.containsKey Dict.get?
  cases hf : List.find? (fun p => p.1 == k) d
  · cases hc : d.any (fun p => p.1 == k)
    · simp
    · obtain ⟨p, hp, hpk⟩ := List.any_eq_true.1 hc
      rw [List.find?_eq_none] at hf
      exact absurd hpk (hf p hp)
  · have := List.any_eq_true.2
      ⟨_, List.mem_of_find?_eq_some hf, List.find?_some hf⟩
    simp [this]

/-- Looking up the key just inserted. -/
theorem get?_insert_self (d : Dict) (k v : String) :
    (Dict.insert d k v).get? k = some v := by
  unfold Dict.insert
  split
  · next hc =>
    unfold Dict.get?
    rw [find?_overwrite_self]
    obtain ⟨p, hp, hpk⟩ := List.any_eq_true.1 hc
    cases hf : List.find? (fun p => p.1 == k) d
    · rw [List.find?_eq_none] at hf
      exact absurd hpk (hf p hp)
    · simp
  · next hc =>
    unfold Dict.get?
    rw [List.find?_append]
    have hf : List.find? (fun p => p.1 == k) d = none := by
      rw [List.find?_eq_none]
      intro p hp hpk
      exact hc (List.any_eq_true.2 ⟨p, hp, hpk⟩)
    rw [hf, List.find?_cons_of_pos _ (by simp)]
    rfl

/-- Looking up a different key after an insert. -/
theorem get?_insert_ne (d : Dict) {k kp : String} (v : String) (hne : kp ≠ k) :
    (Dict.insert d k v).get? kp = d.get? kp := by
  unfold Dict.insert
  split
  · unfold Dict.get?
    rw [find?_overwrite_ne d v hne]
  · unfold Dict.get?
    rw [List.find?_append]
    have h1 : (k == kp) = false := by
      cases h : (k == kp)
      · rfl
      · exact absurd (eq_of_beq h) (fun e => hne e.symm)
    rw [List.find?_cons_of_neg _ (by simp [h1]), List.find?_nil]
    cases List.find? (fun p => p.1 == kp) d <;> rfl

/-- An absent key stays absent under inserts of other keys. -/
theorem containsKey_insert_ne (d : Dict) {k kp : String} (v : String)
    (hne : kp ≠ k) :
    (Dict.insert d k v).containsKey kp = d.containsKey kp := by
  rw [containsKey_eq_isSome_get?, containsKey_eq_isSome_get?, get?_insert_ne d v hne]

/-- The empty pattern occurs in every string. -/
theorem containsSubL_nil (l : List Char) : containsSubL [] l = true := by
  cases l <;> simp [containsSubL, isPfxL]

/-- A prefix test survives appending on the right. -/
theorem isPfxL_append {p t : List Char} (s : List Char)
    (h : isPfxL p t = true) : isPfxL p (t ++ s) = true := by
  induction p generalizing t with
  | nil => simp [isPfxL]
  | cons a pa ih =>
    cases t with
    | nil => cases h
    | cons b tb =>
      simp only [isPfxL, Bool.and_eq_true] at h
      simp only [List.cons_append, isPfxL, Bool.and_eq_true]
      exact ⟨h.1, ih h.2⟩

/-- Substring occurrence survives appending on the right. -/
theorem containsSubL_append_right {p t : List Char} (s : List Char)
    (h : containsSubL p t = true) : containsSubL p (t ++ s) = true := by
  induction t with
  | nil =>
    have hp : p = [] := by
      cases p with
      | nil => rfl
      | cons a pa => simp [containsSubL, isPfxL] at h
    subst hp; exact containsSubL_nil s
  | cons b tb ih =>
    simp only [containsSubL, Bool.or_eq_true] at h
    rcases h with h | h
    · simp only [List.cons_append, containsSubL, Bool.or_eq_true]
      exact Or.inl (isPfxL_append s h)
    · simp only [List.cons_append, containsSubL, Bool.or_eq_true]
      exact Or.inr (ih h)

/-- Substring occurrence in a `take` implies occurrence in the whole list. -/
theorem containsSubL_of_take {p l : List Char} {n : Nat}
    (h : containsSubL p (l.take n) = true) : containsSubL p l = true := by
  have := containsSubL_append_right (l.drop n) h
  rwa [List.take_append_drop] at this

/-! ### C4: appointment-type priority -/

/-- C4: for every raw text, `extract_contextual_information` assigns
`appointment_type` by first match in the fixed priority order:
"first appointment" gives `First Appointment`; else "reappointment" gives
`Reappointment`; else "casual vacancy" gives `Casual Vacancy`; else
`Unknown`.  In particular a text containing both "first appointment" and
"reappointment" yields `First Appointment`, and one containing
"reappointment" but not "first appointment" yields `Reappointment`. -/
theorem appointment_type_first_match (t : String) :
    (containsSubL "first appointment".data (lowerL t.data) = true →
      (extract_contextual_information t).appointment_type = "First Appointment") ∧
    (containsSubL "first appointment".data (lowerL t.data) = false →
      containsSubL "reappointment".data (lowerL t.data) = true →
      (extract_contextual_information t).appointment_type = "Reappointment") ∧
    (containsSubL "first appointment".data (lowerL t.data) = false →
      containsSubL "reappointment".data (lowerL t.data) = false →
      containsSubL "casual vacancy".data (lowerL t.data) = true →
      (extract_contextual_information t).appointment_type = "Casual Vacancy") ∧
    (containsSubL "first appointment".data (lowerL t.data) = false →
      containsSubL "reappointment".data (lowerL t.data) = false →
      containsSubL "casual vacancy".data (lowerL t.data) = false →
      (extract_contextual_information t).appointment_type = "Unknown") := by
  refine ⟨fun h1 => ?_, fun h1 h2 => ?_, fun h1 h2 h3 => ?_, fun h1 h2 h3 => ?_⟩
  · simp [extract_contextual_information, h1]
  · simp [extract_contextual_information, h1, h2]
  · simp [extract_contextual_information, h1, h2, h3]
  · simp [extract_contextual_information, h1, h2, h3]

/-- C4 witness: both phrases present gives `First Appointment`;
"reappointment" without "first appointment" gives `Reappointment`. -/
theorem appointment_type_first_match_witness :
    (extract_contextual_information
      "Scope: first appointment or reappointment of an auditor").appointment_type
      = "First Appointment" ∧
    (extract_contextual_information
      "Notice of reappointment of the auditor").appointment_type
      = "Reappointment" :=
  ⟨(appointment_type_first_match _).1 (by decide),
   (appointment_type_first_match _).2.1 (by decide) (by decide)⟩

/-! ### C1: the document assembled from empty inputs -/

/-- The document the pipeline assembles from an empty raw field set and
empty raw text: every field carries its default (`"Not specified"` for
plain string fields, `false` for booleans, `[]` for lists, `"1"` for
`number_of_auditors`, `"Unknown"` for the appointment nature and
`"Not verified"` for the signature indicator), and the narrative list holds
exactly the always-emitted appointment-type point. -/
def emptyInputDoc : LlmData :=
  { document_type := "ADT-1 Form - Notice of Auditor Appointment"
    summary_context :=
      { purpose := "This document notifies the Registrar of Companies about the appointment of an auditor"
        legal_framework := "Filed under the Companies Act, 2013"
        appointment_nature := "Unknown"
        compliance_sections := [] }
    company_information :=
      { name := "Not specified", cin := "Not specified", type := "Not specified"
        email := "Not specified", address := "Not specified"
        state := "Not specified", pincode := "Not specified" }
    auditor_information :=
      { firm_name := "Not specified", pan := "Not specified"
        membership_number := "Not specified", email := "Not specified"
        address := "Not specified", qualification := "Not specified"
        number_of_auditors := "1", joint_appointment := false }
    appointment_details :=
      { appointment_date := "Not specified", audit_period_start := "Not specified"
        audit_period_end := "Not specified", financial_years_count := "Not specified"
        agm_date := "Not specified", agm_conducted := false
        resolution_number := "Not specified", director_din := "Not specified" }
    compliance_information :=
      { form_filing_date := "Not specified", receipt_date := "Not specified"
        certificate_serial := "Not specified", attachments := []
        digital_signature := "Not verified" }
    key_narrative_points := ["This is a unknown"]
    summary_template :=
      { executive_summary := "This ADT-1 form represents the {appointment_nature} of {auditor_firm_name} as auditor for {company_name} (CIN: {company_cin}) for the financial period from {audit_period_start} to {audit_period_end}."
        key_parties := "Company: {company_name}, Auditor: {auditor_firm_name}"
        timeline := "Appointment effective from {appointment_date}, covering {financial_years_count} financial year(s)"
        compliance_status := "Form filed on {form_filing_date} with certificate serial {certificate_serial}" } }

/-- C1 (counterexample to the claim as stated): on empty inputs the pipeline
raises no error but `key_narrative_points` is not the empty list (the
appointment-type point fires because `'Unknown'` is truthy), and
`number_of_auditors` is `"1"`, not the documented `"Not specified"`
sentinel. -/
theorem empty_input_counterexample :
    (create_llm_ready_summary_data
      (consolidate_duplicate_fields (clean_and_map_form_fields [])) "").key_narrative_points
      = ["This is a unknown"] ∧
    (create_llm_ready_summary_data
      (consolidate_duplicate_fields (clean_and_map_form_fields [])) "").key_narrative_points
      ≠ ([] : List String) ∧
    (create_llm_ready_summary_data
      (consolidate_duplicate_fields (clean_and_map_form_fields [])) "").auditor_information.number_of_auditors
      = "1" :=
  ⟨rfl, by decide, rfl⟩

/-- C1 (amended): the full pipeline on the empty raw field set and empty raw
text produces (without error, the functions being total) exactly the
fully-populated default document `emptyInputDoc`; in particular every plain
string field is `"Not specified"`, every boolean `false`, every list `[]`,
except `number_of_auditors = "1"`, `appointment_nature = "Unknown"`,
`digital_signature = "Not verified"`, and
`key_narrative_points = ["This is a unknown"]`. -/
theorem empty_input_document :
    create_llm_ready_summary_data
      (consolidate_duplicate_fields (clean_and_map_form_fields [])) ""
      = emptyInputDoc :=
  rfl

/-! ### C3: per-field resolution of the assembled document -/

/-- The resolution rule stated by the specification (§4.4), as a definition
following the spec's words: the explicit canonical field value if present,
else the applicable context-derived value, else the sentinel default. -/
def specResolve (fields : Dict) (k : String) (ctxVal : Option String)
    (sentinel : String) : String :=
  (fields.get? k).getD (ctxVal.getD sentinel)

/-- C3 (counterexample to the claim as stated): with no
`number_of_auditors` field the assembler emits `"1"`, while the claimed rule
(field, else context, else the `"Not specified"` string sentinel, no other
default ever appearing) demands `"Not specified"`. -/
theorem assembler_resolution_counterexample :
    (create_llm_data_with_context [] (extract_contextual_information "")
      "").auditor_information.number_of_auditors = "1" ∧
    specResolve [] "number_of_auditors" none "Not specified" = "Not specified" ∧
    ("1" : String) ≠ "Not specified" :=
  ⟨rfl, rfl, by decide⟩

/-- C3 (amended): every declared field of the four output sections is
resolved as the explicit canonical field if present, else the applicable
context value, else its sentinel — with these deviations from the uniform
`"Not specified"`/`false`/`[]` story: `number_of_auditors` defaults to
`"1"`; `form_filing_date` falls back to the `current_date` field before the
sentinel; the composite address fields are produced by the address builder,
the attachments by the attachment parser, and the signature indicator is the
computed `"Present"`/`"Not verified"` scan of the field names. -/
theorem assembler_field_resolution (fields : Dict) (context : ContextFacts)
    (rtext : String) :
    (create_llm_data_with_context fields context rtext).summary_context.appointment_nature
        = context.appointment_type ∧
    (create_llm_data_with_context fields context rtext).summary_context.compliance_sections
        = context.regulatory_sections ∧
    (create_llm_data_with_context fields context rtext).company_information.name
        = specResolve fields "company_name" none "Not specified" ∧
    (create_llm_data_with_context fields context rtext).company_information.cin
        = specResolve fields "company_cin" none "Not specified" ∧
    (create_llm_data_with_context fields context rtext).company_information.type
        = context.company_type.getD "Not specified" ∧
    (create_llm_data_with_context fields context rtext).company_information.email
        = specResolve fields "company_email" none "Not specified" ∧
    (create_llm_data_with_context fields context rtext).company_information.address
        = build_address fields "company" ∧
    (create_llm_data_with_context fields context rtext).company_information.state
        = specResolve fields "company_state" none "Not specified" ∧
    (create_llm_data_with_context fields context rtext).company_information.pincode
        = specResolve fields "company_pincode" none "Not specified" ∧
    (create_llm_data_with_context fields context rtext).auditor_information.firm_name
        = specResolve fields "auditor_firm_name" none "Not specified" ∧
    (create_llm_data_with_context fields context rtext).auditor_information.pan
        = specResolve fields "auditor_pan" none "Not specified" ∧
    (create_llm_data_with_context fields context rtext).auditor_information.membership_number
        = specResolve fields "auditor_membership_number" none "Not specified" ∧
    (create_llm_data_with_context fields context rtext).auditor_information.email
        = specResolve fields "auditor_email" none "Not specified" ∧
    (create_llm_data_with_context fields context rtext).auditor_information.address
        = build_address fields "auditor" ∧
    (create_llm_data_with_context fields context rtext).auditor_information.qualification
        = context.auditor_qualification.getD "Not specified" ∧
    (create_llm_data_with_context fields context rtext).auditor_information.number_of_auditors
        = specResolve fields "number_of_auditors" none "1" ∧
    (create_llm_data_with_context fields context rtext).auditor_information.joint_appointment
        = context.joint_auditors ∧
    (create_llm_data_with_context fields context rtext).appointment_details.appointment_date
        = specResolve fields "appointment_date" none "Not specified" ∧
    (create_llm_data_with_context fields context rtext).appointment_details.audit_period_start
        = specResolve fields "audit_period_from" none "Not specified" ∧
    (create_llm_data_with_context fields context rtext).appointment_details.audit_period_end
        = specResolve fields "audit_period_to" none "Not specified" ∧
    (create_llm_data_with_context fields context rtext).appointment_details.financial_years_count
        = specResolve fields "number_of_financial_years" none "Not specified" ∧
    (create_llm_data_with_context fields context rtext).appointment_details.agm_date
        = specResolve fields "agm_date" context.agm_date "Not specified" ∧
    (create_llm_data_with_context fields context rtext).appointment_details.agm_conducted
        = context.agm_conducted ∧
    (create_llm_data_with_context fields context rtext).appointment_details.resolution_number
        = specResolve fields "resolution_number" none "Not specified" ∧
    (create_llm_data_with_context fields context rtext).appointment_details.director_din
        = specResolve fields "director_din" none "Not specified" ∧
    (create_llm_data_with_context fields context rtext).compliance_information.form_filing_date
        = specResolve fields "form_date" (fields.get? "current_date") "Not specified" ∧
    (create_llm_data_with_context fields context rtext).compliance_information.receipt_date
        = specResolve fields "receipt_date" none "Not specified" ∧
    (create_llm_data_with_context fields context rtext).compliance_information.certificate_serial
        = specResolve fields "certificate_serial_number" none "Not specified" ∧
    (create_llm_data_with_context fields context rtext).compliance_information.attachments
        = parse_attachments (fields.getD "attachments" "") ∧
    (create_llm_data_with_context fields context rtext).compliance_information.digital_signature
        = (if fields.any (fun p => containsSubL "sign".data (lowerL p.1.data))
          then "Present" else "Not verified") := by
  and_intros <;> rfl

/-! ### Trim idempotence and the Field Mapper invariant (C7) -/

/-- `trimL` is right-trim after left-trim. -/
theorem trimL_eq_rdrop (l : List Char) :
    trimL l = List.rdropWhile isSpaceChar (l.dropWhile isSpaceChar) :=
  rfl

/-- A left-trimmed list stays left-trimmed on any of its prefixes. -/
theorem dropWhile_eq_self_of_pfx {p : Char → Bool} {m pre : List Char}
    (hm : List.dropWhile p m = m) (hpre : pre <+: m) :
    List.dropWhile p pre = pre := by
  cases pre with
  | nil => rfl
  | cons a t =>
    obtain ⟨rest, hrest⟩ := hpre
    have hpa : p a = false := by
      cases hpa : p a
      · rfl
      · exfalso
        rw [← hrest, List.cons_append, List.dropWhile_cons_of_pos hpa] at hm
        have h1 := (List.dropWhile_suffix (l := t ++ rest) p).sublist.length_le
        rw [hm] at h1
        simp at h1
    rw [List.dropWhile_cons_of_neg (by simp [hpa])]

/-- Python `strip` is idempotent. -/
theorem trimL_idem (l : List Char) : trimL (trimL l) = trimL l := by
  have h1 : List.dropWhile isSpaceChar (trimL l) = trimL l :=
    dropWhile_eq_self_of_pfx (List.dropWhile_idempotent (p := isSpaceChar) (l := l))
      (List.rdropWhile_prefix isSpaceChar (List.dropWhile isSpaceChar l))
  show List.rdropWhile isSpaceChar (List.dropWhile isSpaceChar (trimL l)) = trimL l
  rw [h1]
  exact List.rdropWhile_idempotent _ _

/-- Python `strip` is idempotent (string version). -/
theorem strTrim_idem (s : String) : strTrim (strTrim s) = strTrim s :=
  congrArg String.mk (trimL_idem s.data)

/-- The invariant of the canonical field set: the name passes the blocklist
and the value is stripped and non-empty. -/
def cleanInv (p : String × String) : Prop :=
  isBlockedName p.1 = false ∧ strTrim p.2 = p.2 ∧ p.2 ≠ ""

/-- A successful table lookup yields a table entry's value. -/
theorem get?_some_mem {d : Dict} {k v : String} (h : d.get? k = some v) :
    ∃ q ∈ d, q.2 = v := by
  unfold Dict.get? at h
  cases hf : List.find? (fun p => p.1 == k) d
  · rw [hf] at h; cases h
  · rw [hf] at h
    exact ⟨_, List.mem_of_find?_eq_some hf, Option.some.inj h⟩

/-- No canonical name of the static mapping table is blocklisted. -/
theorem field_mapping_values_clean :
    ∀ q ∈ field_mapping, isBlockedName q.2 = false := by decide

/-- The pipeline-facing property: one cleaning step preserves `cleanInv` on
all entries. -/
theorem cleanStep_inv (acc : Dict) (x : String × String)
    (h : ∀ p ∈ acc, cleanInv p) : ∀ p ∈ cleanStep acc x, cleanInv p := by
  intro p hp
  unfold cleanStep at hp
  split at hp
  · exact h p hp
  · next ht =>
    have hp2 : p ∈ (if isBlockedName (stripArrayIndex x.1) = true then acc
        else acc.insert ((field_mapping.get? (stripArrayIndex x.1)).getD
          (stripArrayIndex x.1)) (strTrim x.2)) := hp
    clear hp
    split at hp2
    · exact h p hp2
    · next hb =>
      rcases mem_insert hp2 with rfl | hpm
      · refine ⟨?_, strTrim_idem x.2, ht⟩
        cases hlook : field_mapping.get? (stripArrayIndex x.1) with
        | none => simpa using hb
        | some y =>
          obtain ⟨q, hq, hqv⟩ := get?_some_mem hlook
          simpa using hqv ▸ field_mapping_values_clean q hq
      · exact h p hpm

/-- Entries of the cleaned field set satisfy the invariant. -/
theorem clean_and_map_inv (form_fields : Dict) :
    ∀ p ∈ clean_and_map_form_fields form_fields, cleanInv p :=
  foldl_preserve cleanStep (fun d => ∀ p ∈ d, cleanInv p)
    cleanStep_inv form_fields [] (by intro p hp; cases hp)

/-- Blocklisted raw entries are skipped exactly as if they were removed from
the input before processing. -/
theorem clean_and_map_filter : ∀ (l : List (String × String)) (acc : Dict),
    l.foldl cleanStep acc
      = (l.filter (fun p => !isBlockedName (stripArrayIndex p.1))).foldl cleanStep acc
  | [], _ => rfl
  | x :: l, acc => by
    cases hb : isBlockedName (stripArrayIndex x.1)
    · rw [List.filter_cons_of_pos (by simp [hb])]
      simp only [List.foldl_cons]
      exact clean_and_map_filter l (cleanStep acc x)
    · rw [List.filter_cons_of_neg (by simp [hb])]
      simp only [List.foldl_cons]
      have hstep : cleanStep acc x = acc := by
        by_cases ht : strTrim x.2 = ""
        · simp [cleanStep, ht]
        · simp [cleanStep, ht, hb]
      rw [hstep]
      exact clean_and_map_filter l acc

/-- C7: the canonical field set never contains an entry derived from a raw
field whose stripped identifier is blocklisted (cleaning equals cleaning of
the blocklist-filtered input), and every output entry has a non-blocklisted
name and a stripped, non-empty (hence not whitespace-only) value. -/
theorem blocklist_invariant (form_fields : Dict) :
    clean_and_map_form_fields form_fields
      = clean_and_map_form_fields
          (form_fields.filter (fun p => !isBlockedName (stripArrayIndex p.1))) ∧
    ∀ p ∈ clean_and_map_form_fields form_fields,
      isBlockedName p.1 = false ∧ strTrim p.2 = p.2 ∧ p.2 ≠ "" :=
  ⟨clean_and_map_filter form_fields [], clean_and_map_inv form_fields⟩

/-- C7 witness: a concrete raw field set with one blocklisted entry. -/
theorem blocklist_invariant_witness :
    clean_and_map_form_fields [("CIN_C[0]", " abc "), ("Signature_hidden", "zz")]
      = clean_and_map_form_fields
          (([("CIN_C[0]", " abc "), ("Signature_hidden", "zz")] : Dict).filter
            (fun p => !isBlockedName (stripArrayIndex p.1))) ∧
    isBlockedName "company_cin" = false ∧
    strTrim "abc" = "abc" ∧ ("abc" : String) ≠ "" :=
  ⟨(blocklist_invariant [("CIN_C[0]", " abc "), ("Signature_hidden", "zz")]).1,
   (blocklist_invariant [("CIN_C[0]", " abc "), ("Signature_hidden", "zz")]).2
     ("company_cin", "abc") (by decide)⟩

/-! ### Consolidation structure lemmas (shared by C2, C5, C6) -/

/-- The insertion fold underlying both dict-building loops. -/
def insStep (acc : Dict) (p : String × String) : Dict :=
  acc.insert p.1 p.2

/-- The partitioning fold of `consolidate_duplicate_fields` builds the
non-alt entries and the rebased alt entries separately. -/
theorem splitFold_eq : ∀ (l : List (String × String)) (c a : Dict),
    l.foldl splitStep (c, a)
      = ((l.filter (fun p => !strEndsWith p.1 "_alt")).foldl insStep c,
         ((l.filter (fun p => strEndsWith p.1 "_alt")).map
            (fun p => (strDropRight4 p.1, p.2))).foldl insStep a)
  | [], _, _ => rfl
  | x :: l, c, a => by
    cases hx : strEndsWith x.1 "_alt"
    · rw [List.filter_cons_of_pos (by simp [hx]), List.filter_cons_of_neg (by simp [hx])]
      simp only [List.foldl_cons]
      have hs : splitStep (c, a) x = (insStep c x, a) := by
        simp [splitStep, hx, insStep]
      rw [hs]
      exact splitFold_eq l (insStep c x) a
    · rw [List.filter_cons_of_neg (by simp [hx]), List.filter_cons_of_pos (by simp [hx])]
      simp only [List.foldl_cons, List.map_cons]
      have hs : splitStep (c, a) x = (c, a.insert (strDropRight4 x.1) x.2) := by
        simp [splitStep, hx]
      rw [hs]
      exact splitFold_eq l c (a.insert (strDropRight4 x.1) x.2)

/-- Membership after an insertion fold. -/
theorem mem_foldl_insStep : ∀ (l : List (String × String)) (acc : Dict)
    (p : String × String), p ∈ l.foldl insStep acc → p ∈ acc ∨ p ∈ l
  | [], _, _, h => Or.inl h
  | x :: l, acc, p, h => by
    rcases mem_foldl_insStep l (insStep acc x) p h with h1 | h1
    · rcases mem_insert h1 with rfl | h2
      · exact Or.inr (List.mem_cons_self _ _)
      · exact Or.inl h2
    · exact Or.inr (List.mem_cons_of_mem x h1)

/-- One merging step keeps the dict or inserts exactly the alt pair. -/
theorem mem_altStep {cons : Dict} {x p : String × String}
    (h : p ∈ altStep cons x) : p = x ∨ p ∈ cons := by
  unfold altStep at h
  split at h
  · rcases mem_insert h with rfl | h1
    · exact Or.inl rfl
    · exact Or.inr h1
  · split at h
    · rcases mem_insert h with rfl | h1
      · exact Or.inl rfl
      · exact Or.inr h1
    · exact Or.inr h

/-- Membership after the merging fold. -/
theorem mem_foldl_altStep : ∀ (l : List (String × String)) (acc : Dict)
    (p : String × String), p ∈ l.foldl altStep acc → p ∈ acc ∨ p ∈ l
  | [], _, _, h => Or.inl h
  | x :: l, acc, p, h => by
    rcases mem_foldl_altStep l (altStep acc x) p h with h1 | h1
    · rcases mem_altStep h1 with rfl | h2
      · exact Or.inr (List.mem_cons_self _ _)
      · exact Or.inl h2
    · exact Or.inr (List.mem_cons_of_mem x h1)

/-- Every entry of the consolidated set is a non-alt input entry, or carries
the rebased (suffix-stripped) name of an alt input entry. -/
theorem mem_consolidate {d : Dict} {p : String × String}
    (h : p ∈ consolidate_duplicate_fields d) :
    (p ∈ d ∧ strEndsWith p.1 "_alt" = false) ∨
    (∃ q ∈ d, strEndsWith q.1 "_alt" = true ∧ p.1 = strDropRight4 q.1) := by
  simp only [consolidate_duplicate_fields] at h
  rw [splitFold_eq d [] []] at h
  have h0 : p ∈ List.foldl altStep
      ((d.filter (fun p => !strEndsWith p.1 "_alt")).foldl insStep [])
      (((d.filter (fun p => strEndsWith p.1 "_alt")).map
        (fun p => (strDropRight4 p.1, p.2))).foldl insStep []) := h
  rcases mem_foldl_altStep _ _ _ h0 with h1 | h1
  · rcases mem_foldl_insStep _ _ _ h1 with h2 | h2
    · cases h2
    · have hf := List.of_mem_filter h2
      exact Or.inl ⟨List.mem_of_mem_filter h2, by simpa using hf⟩
  · rcases mem_foldl_insStep _ _ _ h1 with h2 | h2
    · cases h2
    · obtain ⟨q, hq, hqe⟩ := List.mem_map.1 h2
      have hqf := List.of_mem_filter hq
      refine Or.inr ⟨q, List.mem_of_mem_filter hq, by simpa using hqf, ?_⟩
      rw [← hqe]

/-! ### C2: the digital-signature indicator -/

/-- The signature scan yields `"Not verified"` whenever no canonical field
name contains `sign`. -/
theorem digital_signature_of_clean (fields : Dict) (context : ContextFacts)
    (rtext : String)
    (h : ∀ p ∈ fields, containsSubL "sign".data (lowerL p.1.data) = false) :
    (create_llm_data_with_context fields context
      rtext).compliance_information.digital_signature = "Not verified" := by
  have hany : fields.any (fun p => containsSubL "sign".data (lowerL p.1.data))
      = false := by
    rw [List.any_eq_false]
    intro p hp
    simp [h p hp]
  simp [create_llm_data_with_context, hany]

/-- Dropping the `_alt` suffix cannot create a `sign` occurrence. -/
theorem no_sign_drop4 {k : String}
    (h : containsSubL "sign".data (lowerL k.data) = false) :
    containsSubL "sign".data (lowerL (strDropRight4 k).data) = false := by
  cases hc : containsSubL "sign".data (lowerL (strDropRight4 k).data)
  · rfl
  · exfalso
    have h2 : lowerL (strDropRight4 k).data
        = (lowerL k.data).take (k.data.length - 4) := by
      show lowerL (k.data.take (k.data.length - 4)) = _
      simp [lowerL, List.map_take]
    rw [h2] at hc
    rw [containsSubL_of_take hc] at h
    cases h

/-- A name passing the blocklist contains no `sign`. -/
theorem no_sign_of_not_blocked {k : String} (h : isBlockedName k = false) :
    containsSubL "sign".data (lowerL k.data) = false := by
  unfold isBlockedName at h
  rw [List.any_eq_false] at h
  have := h "sign" (by simp [blocklist])
  simpa using this

/-- C2: for every raw field set (so in particular whenever the only
`sign`-carrying names could come from raw identifiers — the static mapping
table introduces none), the assembled document's
`compliance_information.digital_signature` is `"Not verified"`: the Field
Mapper has already discarded every raw field whose stripped identifier
contains `sign`, and consolidation cannot reintroduce such a name. -/
theorem digital_signature_not_verified (form_fields : Dict) (raw_text : String) :
    (create_llm_ready_summary_data
      (consolidate_duplicate_fields (clean_and_map_form_fields form_fields))
      raw_text).compliance_information.digital_signature = "Not verified" := by
  unfold create_llm_ready_summary_data
  apply digital_signature_of_clean
  intro p hp
  rcases mem_consolidate hp with ⟨hpd, _⟩ | ⟨q, hq, _, hpe⟩
  · exact no_sign_of_not_blocked (clean_and_map_inv form_fields p hpd).1
  · rw [hpe]
    exact no_sign_drop4 (no_sign_of_not_blocked (clean_and_map_inv form_fields q hq).1)

/-! ### String lemmas for the `_alt` suffix -/

/-- Strings with equal character data are equal. -/
theorem strDataExt {s t : String} (h : s.data = t.data) : s = t := by
  cases s; cases t; cases h; rfl

/-- Unfolding `strEndsWith`. -/
theorem strEndsWith_iff {s suf : String} :
    strEndsWith s suf = true ↔ suf.data <:+ s.data := by
  simp [strEndsWith]

/-- The suffix-stripped data of an `_alt` key. -/
theorem drop4_of_suffix {k : String} {t : List Char}
    (ht : t ++ "_alt".data = k.data) : (strDropRight4 k).data = t := by
  show k.data.take (k.data.length - 4) = t
  have hlen : k.data.length - 4 = t.length := by
    rw [← ht, List.length_append]
    have h4 : ("_alt".data).length = 4 := rfl
    omega
  rw [hlen, ← ht, List.take_left]

/-- An `_alt` key is its stripped base plus the suffix. -/
theorem endsWith_alt_decomp {k : String} (h : strEndsWith k "_alt" = true) :
    k = strDropRight4 k ++ "_alt" := by
  rw [strEndsWith_iff] at h
  obtain ⟨t, ht⟩ := h
  refine strDataExt ?_
  show k.data = (strDropRight4 k).data ++ "_alt".data
  rw [drop4_of_suffix ht, ht]

/-- Appending the suffix and stripping it are inverse. -/
theorem drop4_append_alt (x : String) : strDropRight4 (x ++ "_alt") = x :=
  strDataExt (drop4_of_suffix rfl)

/-- Any string extended by `_alt` ends with `_alt`. -/
theorem endsWith_append_alt (x : String) :
    strEndsWith (x ++ "_alt") "_alt" = true :=
  strEndsWith_iff.2 ⟨x.data, rfl⟩

/-- Suffix stripping is injective on `_alt` keys. -/
theorem alt_key_inj {k₁ k₂ : String} (h₁ : strEndsWith k₁ "_alt" = true)
    (h₂ : strEndsWith k₂ "_alt" = true)
    (h : strDropRight4 k₁ = strDropRight4 k₂) : k₁ = k₂ := by
  rw [endsWith_alt_decomp h₁, endsWith_alt_decomp h₂, h]

/-- A key whose stripped base still ends in `_alt` is doubly suffixed. -/
theorem endsWith_alt_alt {k : String}
    (h1 : strEndsWith k "_alt" = true)
    (h2 : strEndsWith (strDropRight4 k) "_alt" = true) :
    strEndsWith k "_alt_alt" = true := by
  rw [strEndsWith_iff] at h2 ⊢
  obtain ⟨u, hu⟩ := h2
  refine ⟨u, ?_⟩
  have hk := endsWith_alt_decomp h1
  conv_rhs => rw [hk]
  show u ++ "_alt_alt".data = (strDropRight4 k ++ "_alt").data
  show u ++ "_alt_alt".data = (strDropRight4 k).data ++ "_alt".data
  rw [← hu, List.append_assoc]
  rfl

/-! ### C5: idempotence of consolidation -/

/-- Insertion folds preserve key distinctness. -/
theorem keys_foldl_insStep_nodup (l : List (String × String)) (acc : Dict)
    (h : acc.keysNodup) : (l.foldl insStep acc).keysNodup :=
  foldl_preserve insStep Dict.keysNodup
    (fun acc x hh => keysNodup_insert hh x.1 x.2) l acc h

/-- A merging step preserves key distinctness. -/
theorem keysNodup_altStep {cons : Dict} (h : cons.keysNodup)
    (x : String × String) : (altStep cons x).keysNodup := by
  unfold altStep
  split
  · exact keysNodup_insert h x.1 x.2
  · split
    · exact keysNodup_insert h x.1 x.2
    · exact h

/-- Consolidation always outputs pairwise-distinct keys. -/
theorem consolidate_keysNodup (d : Dict) :
    (consolidate_duplicate_fields d).keysNodup := by
  simp only [consolidate_duplicate_fields]
  rw [splitFold_eq d [] []]
  exact foldl_preserve altStep Dict.keysNodup
    (fun acc x hh => keysNodup_altStep hh x) _ _
    (keys_foldl_insStep_nodup _ [] (by simp [Dict.keysNodup]))

/-- Inserting entries with fresh, pairwise-distinct keys is appending. -/
theorem foldl_insStep_append : ∀ (l : List (String × String)) (acc : Dict),
    (∀ p ∈ l, acc.containsKey p.1 = false) → ((l.map Prod.fst).Nodup) →
    l.foldl insStep acc = acc ++ l
  | [], acc, _, _ => (List.append_nil acc).symm
  | x :: l, acc, hdis, hnd => by
    simp only [List.map_cons, List.nodup_cons] at hnd
    have hx : acc.containsKey x.1 = false := hdis x (List.mem_cons_self _ _)
    have hstep : insStep acc x = acc ++ [x] := by
      unfold insStep Dict.insert
      rw [if_neg (by simp [hx])]
    have ih := foldl_insStep_append l (acc ++ [x]) (by
      intro p hp
      have h1 : acc.containsKey p.1 = false := hdis p (List.mem_cons_of_mem _ hp)
      have h2 : (x.1 == p.1) = false := by
        cases he : (x.1 == p.1)
        · rfl
        · exact absurd ((eq_of_beq he) ▸ List.mem_map_of_mem Prod.fst hp) hnd.1
      show (acc ++ [x]).any (fun q => q.1 == p.1) = false
      rw [List.any_append]
      have h1' : acc.any (fun q => q.1 == p.1) = false := h1
      simp [h1', h2]) hnd.2
    simp only [List.foldl_cons]
    rw [hstep, ih, List.append_assoc]
    rfl

/-- Consolidating a set with distinct keys and no alt keys is the identity. -/
theorem consolidate_no_alt (d : Dict) (hnd : d.keysNodup)
    (halt : ∀ p ∈ d, strEndsWith p.1 "_alt" = false) :
    consolidate_duplicate_fields d = d := by
  simp only [consolidate_duplicate_fields]
  rw [splitFold_eq d [] []]
  have hf1 : d.filter (fun p => !strEndsWith p.1 "_alt") = d :=
    List.filter_eq_self.2 (fun p hp => by simp [halt p hp])
  have hf2 : d.filter (fun p => strEndsWith p.1 "_alt") = [] :=
    List.filter_eq_nil_iff.2 (fun p hp => by simp [halt p hp])
  rw [hf1, hf2]
  show List.foldl insStep [] d = d
  rw [foldl_insStep_append d [] (fun p _ => rfl) hnd]
  exact List.nil_append d

/-- Without doubly-suffixed input keys, no output key keeps an `_alt`
suffix. -/
theorem consolidate_keys_no_alt {d : Dict}
    (h2alt : ∀ p ∈ d, strEndsWith p.1 "_alt_alt" = false) :
    ∀ p ∈ consolidate_duplicate_fields d, strEndsWith p.1 "_alt" = false := by
  intro p hp
  rcases mem_consolidate hp with ⟨_, hna⟩ | ⟨q, hq, hqa, hpe⟩
  · exact hna
  · cases hc : strEndsWith p.1 "_alt"
    · rfl
    · exfalso
      rw [hpe] at hc
      have hdd := endsWith_alt_alt hqa hc
      rw [h2alt q hq] at hdd
      cases hdd

/-- C5 (counterexample to the claim as stated): on the canonical field set
`{"x_alt_alt": "v"}` (reachable: the name passes the blocklist and the value
is non-empty) consolidation leaves the alt-suffixed key `x_alt` in its
output, and re-running it changes the result again. -/
theorem consolidate_idempotent_counterexample :
    consolidate_duplicate_fields [("x_alt_alt", "v")] = [("x_alt", "v")] ∧
    consolidate_duplicate_fields
      (consolidate_duplicate_fields [("x_alt_alt", "v")]) = [("x", "v")] ∧
    consolidate_duplicate_fields
        (consolidate_duplicate_fields [("x_alt_alt", "v")])
      ≠ consolidate_duplicate_fields [("x_alt_alt", "v")] ∧
    (consolidate_duplicate_fields
        (consolidate_duplicate_fields [("x_alt_alt", "v")])).get? "x_alt"
      ≠ (consolidate_duplicate_fields [("x_alt_alt", "v")]).get? "x_alt" ∧
    strEndsWith "x_alt" "_alt" = true :=
  ⟨by decide, by decide, by decide, by decide, by decide⟩

/-- C5 (amended): on every canonical field set with pairwise-distinct keys
none of which ends in `_alt_alt`, consolidation is idempotent and no output
key ends with the `_alt` suffix. -/
theorem consolidate_idempotent (S : Dict)
    (h2 : ∀ p ∈ S, strEndsWith p.1 "_alt_alt" = false) :
    consolidate_duplicate_fields (consolidate_duplicate_fields S)
      = consolidate_duplicate_fields S ∧
    ∀ p ∈ consolidate_duplicate_fields S, strEndsWith p.1 "_alt" = false := by
  have hno := consolidate_keys_no_alt h2
  exact ⟨consolidate_no_alt _ (consolidate_keysNodup S) hno, hno⟩

/-- C5 witness: a concrete run with an alt key and its primary. -/
theorem consolidate_idempotent_witness :
    consolidate_duplicate_fields (consolidate_duplicate_fields
        [("company_city_alt", "X"), ("company_city", "Y")])
      = consolidate_duplicate_fields
          [("company_city_alt", "X"), ("company_city", "Y")] ∧
    strEndsWith "company_city" "_alt" = false :=
  ⟨(consolidate_idempotent [("company_city_alt", "X"), ("company_city", "Y")]
      (by decide)).1,
   (consolidate_idempotent [("company_city_alt", "X"), ("company_city", "Y")]
      (by decide)).2 ("company_city", "Y") (by decide)⟩

/-! ### C6: the alt-merge rule -/

/-- A merge step for another base key does not affect a lookup. -/
theorem get?_altStep_ne {cons : Dict} {x : String × String} {k : String}
    (h : x.1 ≠ k) : (altStep cons x).get? k = cons.get? k := by
  unfold altStep
  split
  · exact get?_insert_ne cons x.2 (fun e => h e.symm)
  · split
    · exact get?_insert_ne cons x.2 (fun e => h e.symm)
    · rfl

/-- The merging fold over other base keys does not affect a lookup. -/
theorem get?_foldl_altStep_ne : ∀ (l : List (String × String)) (cons : Dict)
    (k : String), (∀ p ∈ l, p.1 ≠ k) →
    (l.foldl altStep cons).get? k = cons.get? k
  | [], _, _, _ => rfl
  | x :: l, cons, k, h => by
    simp only [List.foldl_cons]
    rw [get?_foldl_altStep_ne l _ k (fun p hp => h p (List.mem_cons_of_mem _ hp))]
    exact get?_altStep_ne (h x (List.mem_cons_self _ _))

/-- A defined lookup exhibits its entry. -/
theorem get?_some_pair_mem {d : Dict} {k v : String} (h : d.get? k = some v) :
    (k, v) ∈ d := by
  unfold Dict.get? at h
  cases hf : List.find? (fun p => p.1 == k) d with
  | none => rw [hf] at h; cases h
  | some q =>
    rw [hf] at h
    have hb : (q.1 == k) = true := List.find?_some (p := fun (r : String × String) => r.1 == k) hf
    have h1 : q.1 = k := eq_of_beq hb
    have h2 : q.2 = v := Option.some.inj h
    have hq : (k, v) = q := by rw [← h1, ← h2]
    exact hq ▸ List.mem_of_find?_eq_some hf

/-- Under distinct keys, membership determines the lookup. -/
theorem get?_of_mem_nodup : ∀ {d : Dict} {k v : String},
    d.keysNodup → (k, v) ∈ d → d.get? k = some v := by
  intro d
  induction d with
  | nil => intro k v _ h; cases h
  | cons q rest ih =>
    intro k v hnd hm
    unfold Dict.keysNodup at hnd
    simp only [List.map_cons, List.nodup_cons] at hnd
    rcases List.mem_cons.1 hm with rfl | hm'
    · unfold Dict.get?
      rw [List.find?_cons_of_pos _ (by simp)]
      rfl
    · have hk : q.1 ≠ k := by
        intro e
        have hmk := List.mem_map_of_mem Prod.fst hm'
        rw [← e] at hmk
        exact hnd.1 hmk
      unfold Dict.get?
      rw [List.find?_cons_of_neg _ (by simp [hk])]
      exact ih hnd.2 hm'

/-- An absent key has no lookup. -/
theorem get?_eq_none_of_not_contains {d : Dict} {k : String}
    (h : d.containsKey k = false) : d.get? k = none := by
  have hc := containsKey_eq_isSome_get? d k
  rw [h] at hc
  cases hg : d.get? k
  · rfl
  · rw [hg] at hc; cases hc

/-- A member's key is contained. -/
theorem containsKey_of_mem {d : Dict} {q : String × String} (h : q ∈ d) :
    d.containsKey q.1 = true :=
  List.any_eq_true.2 ⟨q, h, by simp⟩

/-- Filtering preserves key distinctness. -/
theorem keysNodup_filter (S : Dict) (hnd : S.keysNodup)
    (p : String × String → Bool) : Dict.keysNodup (S.filter p) :=
  List.Nodup.sublist ((List.filter_sublist S).map Prod.fst) hnd

/-- The rebased alt list of a distinct-key dict has distinct keys. -/
theorem keysNodup_rebased (S : Dict) (hnd : S.keysNodup) :
    (((S.filter (fun p => strEndsWith p.1 "_alt")).map
      (fun p => (strDropRight4 p.1, p.2))).map Prod.fst).Nodup := by
  rw [List.map_map]
  show ((S.filter (fun p => strEndsWith p.1 "_alt")).map
    (fun p => strDropRight4 p.1)).Nodup
  have hrw : (fun (p : String × String) => strDropRight4 p.1)
      = (strDropRight4 ∘ Prod.fst) := rfl
  rw [hrw, ← List.map_map]
  refine List.Nodup.map_on ?_ (keysNodup_filter S hnd _)
  intro x hx y hy hxy
  obtain ⟨px, hpx, rfl⟩ := List.mem_map.1 hx
  obtain ⟨py, hpy, rfl⟩ := List.mem_map.1 hy
  exact alt_key_inj (by simpa using (List.mem_filter.1 hpx).2)
    (by simpa using (List.mem_filter.1 hpy).2) hxy

/-- The consolidated dict, rewritten as the merging fold over the plain
rebased alt list (valid when the input keys are distinct). -/
theorem consolidate_eq_fold (S : Dict) (hnd : S.keysNodup) :
    consolidate_duplicate_fields S
      = List.foldl altStep
          (List.foldl insStep [] (S.filter (fun p => !strEndsWith p.1 "_alt")))
          ((S.filter (fun p => strEndsWith p.1 "_alt")).map
            (fun p => (strDropRight4 p.1, p.2))) := by
  simp only [consolidate_duplicate_fields]
  rw [splitFold_eq S [] []]
  show List.foldl altStep
      (List.foldl insStep [] (S.filter (fun p => !strEndsWith p.1 "_alt")))
      (List.foldl insStep [] ((S.filter (fun p => strEndsWith p.1 "_alt")).map
        (fun p => (strDropRight4 p.1, p.2)))) = _
  rw [foldl_insStep_append _ [] (fun p _ => rfl) (keysNodup_rebased S hnd),
    List.nil_append]

/-- A merge step that finds no primary installs the alt value. -/
theorem altStep_get_none {cons : Dict} {P v : String}
    (h : Dict.get? cons P = none) :
    Dict.get? (altStep cons (P, v)) P = some v := by
  unfold altStep
  have hsc : Dict.get? cons (P, v).1 = none := h
  rw [hsc]
  exact get?_insert_self cons P v

/-- A merge step that finds a non-empty primary keeps it. -/
theorem altStep_get_some {cons : Dict} {P v x : String}
    (h : Dict.get? cons P = some x) (hx : x ≠ "") :
    Dict.get? (altStep cons (P, v)) P = some x := by
  unfold altStep
  have hsc : Dict.get? cons (P, v).1 = some x := h
  rw [hsc]
  show Dict.get? (if x = "" then Dict.insert cons (P, v).1 (P, v).2 else cons) P
    = some x
  rw [if_neg hx]
  exact h

/-- C6 (counterexample to the claim as stated): on
`{"y_alt": "x", "y_alt_alt": "v"}`, take `P = "y_alt"`: the primary `P` has
the non-empty value `"x"` and `P_alt = "y_alt_alt"` is present with `"v"`,
yet consolidation yields `P = "v"` (the primary entry was itself treated as
an alt of `y`), and the alt-suffixed name `y_alt` survives in the output. -/
theorem alt_merge_counterexample :
    Dict.get? [("y_alt", "x"), ("y_alt_alt", "v")] "y_alt" = some "x" ∧
    Dict.get? [("y_alt", "x"), ("y_alt_alt", "v")] ("y_alt" ++ "_alt") = some "v" ∧
    (consolidate_duplicate_fields [("y_alt", "x"), ("y_alt_alt", "v")]).get? "y_alt"
      = some "v" ∧
    (consolidate_duplicate_fields [("y_alt", "x"), ("y_alt_alt", "v")]).get? "y_alt"
      ≠ some "x" ∧
    (consolidate_duplicate_fields
        [("y_alt", "x"), ("y_alt_alt", "v")]).containsKey "y_alt" = true :=
  ⟨by decide, by decide, by decide, by decide, by decide⟩

/-- C6 (amended): for every canonical field set with pairwise-distinct keys,
and every primary name `P` that does not itself end in `_alt` and whose
doubly-suffixed companion `P_alt_alt` is absent: if `P_alt = v` is present
then (i) `P` absent gives `P = v` in the output, (ii) `P` present with a
non-empty value `x` gives `P = x` (the alt value is ignored), and (iii) the
name `P_alt` itself never appears in the output. -/
theorem alt_merge (S : Dict) (P v : String)
    (hnd : S.keysNodup)
    (hP : strEndsWith P "_alt" = false)
    (hno2 : S.containsKey ((P ++ "_alt") ++ "_alt") = false)
    (hv : S.get? (P ++ "_alt") = some v) :
    (S.containsKey P = false →
      (consolidate_duplicate_fields S).get? P = some v) ∧
    (∀ x, S.get? P = some x → x ≠ "" →
      (consolidate_duplicate_fields S).get? P = some x) ∧
    (consolidate_duplicate_fields S).containsKey (P ++ "_alt") = false := by
  have hmemS : (P ++ "_alt", v) ∈ S := get?_some_pair_mem hv
  have hmemF : (P ++ "_alt", v) ∈ S.filter (fun p => strEndsWith p.1 "_alt") :=
    List.mem_filter.2 ⟨hmemS, by simpa using endsWith_append_alt P⟩
  have hmemA : (P, v) ∈ (S.filter (fun p => strEndsWith p.1 "_alt")).map
      (fun p => (strDropRight4 p.1, p.2)) := by
    have h0 := List.mem_map_of_mem (fun p => (strDropRight4 p.1, p.2)) hmemF
    simp only [drop4_append_alt] at h0
    exact h0
  obtain ⟨l₁, l₂, hA⟩ := List.append_of_mem hmemA
  have hAkeys := keysNodup_rebased S hnd
  rw [hA, List.map_append, List.map_cons, List.nodup_append] at hAkeys
  have hl₁ : ∀ p ∈ l₁, p.1 ≠ P := by
    intro p hp e
    have hmk := List.mem_map_of_mem Prod.fst hp
    rw [e] at hmk
    exact hAkeys.2.2 hmk (List.mem_cons_self _ _)
  have hl₂ : ∀ p ∈ l₂, p.1 ≠ P := by
    intro p hp e
    have hmk := List.mem_map_of_mem Prod.fst hp
    rw [e] at hmk
    exact (List.nodup_cons.1 hAkeys.2.1).1 hmk
  have hrw : (consolidate_duplicate_fields S).get? P
      = Dict.get? (altStep (List.foldl altStep
          (List.foldl insStep [] (S.filter (fun p => !strEndsWith p.1 "_alt")))
          l₁) (P, v)) P := by
    rw [consolidate_eq_fold S hnd, hA, List.foldl_append]
    simp only [List.foldl_cons]
    exact get?_foldl_altStep_ne l₂ _ P hl₂
  have hcons1 : Dict.get? (List.foldl altStep
      (List.foldl insStep [] (S.filter (fun p => !strEndsWith p.1 "_alt"))) l₁) P
      = Dict.get? (List.foldl insStep []
          (S.filter (fun p => !strEndsWith p.1 "_alt"))) P :=
    get?_foldl_altStep_ne l₁ _ P hl₁
  have hF : List.foldl insStep [] (S.filter (fun p => !strEndsWith p.1 "_alt"))
      = S.filter (fun p => !strEndsWith p.1 "_alt") := by
    rw [foldl_insStep_append _ [] (fun p _ => rfl) (keysNodup_filter S hnd _),
      List.nil_append]
  refine ⟨?_, ?_, ?_⟩
  · intro habs
    have hnone : Dict.get? (S.filter (fun p => !strEndsWith p.1 "_alt")) P
        = none := by
      cases hg : Dict.get? (S.filter (fun p => !strEndsWith p.1 "_alt")) P
      · rfl
      · exfalso
        have hmem := List.mem_of_mem_filter (get?_some_pair_mem hg)
        rw [containsKey_of_mem hmem] at habs
        cases habs
    rw [hrw]
    exact altStep_get_none (by rw [hcons1, hF]; exact hnone)
  · intro x hx hxe
    have hmemFx : (P, x) ∈ S.filter (fun p => !strEndsWith p.1 "_alt") :=
      List.mem_filter.2 ⟨get?_some_pair_mem hx, by simp [hP]⟩
    have hsome : Dict.get? (S.filter (fun p => !strEndsWith p.1 "_alt")) P
        = some x :=
      get?_of_mem_nodup (keysNodup_filter S hnd _) hmemFx
    rw [hrw]
    exact altStep_get_some (by rw [hcons1, hF]; exact hsome) hxe
  · cases hck : (consolidate_duplicate_fields S).containsKey (P ++ "_alt")
    · rfl
    · exfalso
      obtain ⟨q, hq, hbeq⟩ := List.any_eq_true.1 hck
      have hq1 : q.1 = P ++ "_alt" := eq_of_beq hbeq
      rcases mem_consolidate hq with ⟨_, hna⟩ | ⟨r, hr, hra, hre⟩
      · rw [hq1, endsWith_append_alt] at hna
        cases hna
      · have hr1 : r.1 = (P ++ "_alt") ++ "_alt" := by
          rw [endsWith_alt_decomp hra, ← hre, hq1]
        have hcr := containsKey_of_mem hr
        rw [hr1, hno2] at hcr
        cases hcr

/-- C6 witness: concrete alt-merge runs — alt fills an absent primary, a
non-empty primary wins, and the alt name disappears. -/
theorem alt_merge_witness :
    (consolidate_duplicate_fields [("p_alt", "v")]).get? "p" = some "v" ∧
    (consolidate_duplicate_fields [("p", "x"), ("p_alt", "v")]).get? "p"
      = some "x" ∧
    (consolidate_duplicate_fields
        [("p", "x"), ("p_alt", "v")]).containsKey ("p" ++ "_alt") = false :=
  ⟨(alt_merge [("p_alt", "v")] "p" "v"
      (by unfold Dict.keysNodup; decide) (by decide) (by decide) (by decide)).1
      (by decide),
   (alt_merge [("p", "x"), ("p_alt", "v")] "p" "v"
      (by unfold Dict.keysNodup; decide) (by decide) (by decide) (by decide)).2.1
      "x" (by decide) (by decide),
   (alt_merge [("p", "x"), ("p_alt", "v")] "p" "v"
      (by unfold Dict.keysNodup; decide) (by decide) (by decide) (by decide)).2.2⟩

/-! ### C8: the AGM date search -/

/-- The claim's description of a date token, as an executable check:
1-2 digits, a separator, 1-2 digits, a separator, exactly 4 digits. -/
def isDateTokL (d : List Char) : Bool :=
  let d1 := d.takeWhile isDigitC
  (decide (1 ≤ d1.length) && decide (d1.length ≤ 2)) &&
  match d.dropWhile isDigitC with
  | s1 :: r2 =>
    isSepC s1 &&
    (let d2 := r2.takeWhile isDigitC
     (decide (1 ≤ d2.length) && decide (d2.length ≤ 2)) &&
     match r2.dropWhile isDigitC with
     | s2 :: y => isSepC s2 && decide (y.length = 4) && y.all isDigitC
     | [] => false)
  | [] => false

/-- The corresponding structural decomposition. -/
def DateShape (d : List Char) : Prop :=
  ∃ d1 s1 d2 s2 y, d = d1 ++ s1 :: (d2 ++ s2 :: y) ∧
    (∀ c ∈ d1, isDigitC c = true) ∧ 1 ≤ d1.length ∧ d1.length ≤ 2 ∧
    isSepC s1 = true ∧
    (∀ c ∈ d2, isDigitC c = true) ∧ 1 ≤ d2.length ∧ d2.length ≤ 2 ∧
    isSepC s2 = true ∧
    y.length = 4 ∧ (∀ c ∈ y, isDigitC c = true)

/-- A separator is not a digit. -/
theorem sep_not_digit {c : Char} (h : isSepC c = true) : isDigitC c = false := by
  simp only [isSepC, Bool.or_eq_true, decide_eq_true_eq] at h
  rcases h with rfl | rfl <;> decide

/-- `takeWhile`/`dropWhile` on a run of satisfying elements followed by a
failing one. -/
theorem takeWhile_append_run {p : Char → Bool} :
    ∀ (a : List Char) {b : Char} (r : List Char),
    (∀ c ∈ a, p c = true) → p b = false →
    (a ++ b :: r).takeWhile p = a ∧ (a ++ b :: r).dropWhile p = b :: r
  | [], b, r, _, hb => by
    constructor
    · simp [List.takeWhile_cons, hb]
    · simp [List.dropWhile_cons, hb]
  | x :: a, b, r, ha, hb => by
    have hx : p x = true := ha x (List.mem_cons_self _ _)
    have ih := takeWhile_append_run a r
      (fun c hc => ha c (List.mem_cons_of_mem _ hc)) hb
    constructor
    · simp only [List.cons_append, List.takeWhile_cons, hx, if_true]
      rw [ih.1]
    · simp only [List.cons_append, List.dropWhile_cons, hx, if_true]
      exact ih.2

/-- The executable date check captures exactly the structural shape. -/
theorem isDateTokL_iff_shape {d : List Char} :
    isDateTokL d = true ↔ DateShape d := by
  constructor
  · intro h
    unfold isDateTokL at h
    simp only [Bool.and_eq_true, decide_eq_true_eq] at h
    obtain ⟨⟨h1, h2⟩, hrest⟩ := h
    cases hr1 : d.dropWhile isDigitC with
    | nil => rw [hr1] at hrest; cases hrest
    | cons s1 r2 =>
      rw [hr1] at hrest
      simp only [Bool.and_eq_true, decide_eq_true_eq] at hrest
      obtain ⟨hs1, ⟨h3, h4⟩, hrest2⟩ := hrest
      cases hr2 : r2.dropWhile isDigitC with
      | nil => rw [hr2] at hrest2; cases hrest2
      | cons s2 y =>
        rw [hr2] at hrest2
        simp only [Bool.and_eq_true, decide_eq_true_eq] at hrest2
        obtain ⟨⟨hs2, hy4⟩, hyd⟩ := hrest2
        refine ⟨d.takeWhile isDigitC, s1, r2.takeWhile isDigitC, s2, y,
          ?_, fun c hc => List.mem_takeWhile_imp hc, h1, h2, hs1,
          fun c hc => List.mem_takeWhile_imp hc, h3, h4, hs2, hy4,
          fun c hc => by simpa using List.all_eq_true.1 hyd c hc⟩
        have hd : d = d.takeWhile isDigitC ++ s1 :: r2 := by
          rw [← hr1]
          exact (List.takeWhile_append_dropWhile (p := isDigitC) (l := d)).symm
        have hr2e : r2 = r2.takeWhile isDigitC ++ s2 :: y := by
          rw [← hr2]
          exact (List.takeWhile_append_dropWhile (p := isDigitC) (l := r2)).symm
        calc d = d.takeWhile isDigitC ++ s1 :: r2 := hd
          _ = d.takeWhile isDigitC ++ s1 :: (r2.takeWhile isDigitC ++ s2 :: y) := by
              rw [← hr2e]
  · rintro ⟨d1, s1, d2, s2, y, rfl, hd1, h1, h2, hs1, hd2, h3, h4, hs2, hy4, hyd⟩
    have e1 := takeWhile_append_run (p := isDigitC) d1 (d2 ++ s2 :: y) hd1
      (sep_not_digit hs1)
    have e2 := takeWhile_append_run (p := isDigitC) d2 y hd2 (sep_not_digit hs2)
    simp only [isDateTokL, e1.1, e1.2, e2.1, e2.2]
    simp [hs1, hs2, h1, h2, h3, h4, hy4, List.all_eq_true]
    exact hyd

/-- `matchYear` soundness. -/
theorem matchYear_sound : ∀ {l y : List Char}, matchYear l = some y →
    ∃ w, l = y ++ w ∧ y.length = 4 ∧ ∀ c ∈ y, isDigitC c = true := by
  intro l y h
  unfold matchYear at h
  split at h
  · next y1 y2 y3 y4 rest =>
    split at h
    · next hd =>
      simp only [Bool.and_eq_true] at hd
      obtain ⟨⟨⟨hd1, hd2⟩, hd3⟩, hd4⟩ := hd
      cases h
      refine ⟨rest, rfl, rfl, ?_⟩
      intro c hc
      rcases (by simpa using hc : c = y1 ∨ c = y2 ∨ c = y3 ∨ c = y4)
        with rfl | rfl | rfl | rfl
      exacts [hd1, hd2, hd3, hd4]
    · cases h
  · cases h

/-- `matchSepYear` soundness. -/
theorem matchSepYear_sound : ∀ {l r : List Char}, matchSepYear l = some r →
    ∃ s y w, r = s :: y ∧ isSepC s = true ∧ y.length = 4 ∧
      (∀ c ∈ y, isDigitC c = true) ∧ l = r ++ w := by
  intro l r h
  cases l with
  | nil => cases h
  | cons s rest =>
    simp only [matchSepYear] at h
    cases hsep : isSepC s
    · simp [hsep] at h
    · simp only [hsep, if_true] at h
      cases hy : matchYear rest with
      | none => rw [hy] at h; cases h
      | some y =>
        rw [hy] at h
        have h2 : some (s :: y) = some r := h
        cases h2
        obtain ⟨w, hw, hlen, hdig⟩ := matchYear_sound hy
        exact ⟨s, y, w, rfl, hsep, hlen, hdig, by rw [hw]; rfl⟩

/-- `matchD2SepYear` soundness. -/
theorem matchD2SepYear_sound : ∀ {l r : List Char}, matchD2SepYear l = some r →
    ∃ d2 s2 y w, r = d2 ++ s2 :: y ∧ (∀ c ∈ d2, isDigitC c = true) ∧
      1 ≤ d2.length ∧ d2.length ≤ 2 ∧ isSepC s2 = true ∧ y.length = 4 ∧
      (∀ c ∈ y, isDigitC c = true) ∧ l = r ++ w := by
  intro l r h
  match l with
  | [] => cases h
  | [a] => simp [matchD2SepYear] at h
  | a :: b :: rest =>
    simp only [matchD2SepYear] at h
    cases hda : isDigitC a
    · simp [hda] at h
    · simp only [hda, if_true] at h
      cases hdb : isDigitC b
      · simp only [hdb, Bool.false_eq_true, if_false] at h
        cases hsy : matchSepYear (b :: rest) with
        | none => rw [hsy] at h; cases h
        | some t =>
          rw [hsy] at h
          have h2 : some (a :: t) = some r := h
          cases h2
          obtain ⟨s2, y, w, ht, hs2, hy4, hyd, hbw⟩ := matchSepYear_sound hsy
          refine ⟨[a], s2, y, w, by rw [ht]; rfl, ?_, by simp, by simp,
            hs2, hy4, hyd, by rw [List.cons_append, ← hbw]⟩
          intro c hc
          rcases (by simpa using hc : c = a) with rfl
          exact hda
      · simp only [hdb, if_true] at h
        cases hsy : matchSepYear rest with
        | some t =>
          rw [hsy] at h
          have h2 : some (a :: b :: t) = some r := h
          cases h2
          obtain ⟨s2, y, w, ht, hs2, hy4, hyd, hbw⟩ := matchSepYear_sound hsy
          refine ⟨[a, b], s2, y, w, by rw [ht]; rfl, ?_, by simp, by simp,
            hs2, hy4, hyd, ?_⟩
          · intro c hc
            rcases (by simpa using hc : c = a ∨ c = b) with rfl | rfl
            exacts [hda, hdb]
          · show a :: b :: rest = a :: b :: t ++ w
            rw [hbw]; rfl
        | none =>
          rw [hsy] at h
          cases hsy2 : matchSepYear (b :: rest) with
          | none => rw [hsy2] at h; cases h
          | some t =>
            rw [hsy2] at h
            have h2 : some (a :: t) = some r := h
            cases h2
            obtain ⟨s2, y, w, ht, hs2, hy4, hyd, hbw⟩ := matchSepYear_sound hsy2
            refine ⟨[a], s2, y, w, by rw [ht]; rfl, ?_, by simp, by simp,
              hs2, hy4, hyd, by rw [List.cons_append, ← hbw]⟩
            intro c hc
            rcases (by simpa using hc : c = a) with rfl
            exact hda

/-- `matchSepRest` soundness. -/
theorem matchSepRest_sound : ∀ {l r : List Char}, matchSepRest l = some r →
    ∃ s1 t w, r = s1 :: t ∧ isSepC s1 = true ∧
      (∃ d2 s2 y, t = d2 ++ s2 :: y ∧ (∀ c ∈ d2, isDigitC c = true) ∧
        1 ≤ d2.length ∧ d2.length ≤ 2 ∧ isSepC s2 = true ∧ y.length = 4 ∧
        (∀ c ∈ y, isDigitC c = true)) ∧ l = r ++ w := by
  intro l r h
  cases l with
  | nil => cases h
  | cons s rest =>
    simp only [matchSepRest] at h
    cases hsep : isSepC s
    · simp [hsep] at h
    · simp only [hsep, if_true] at h
      cases hd : matchD2SepYear rest with
      | none => rw [hd] at h; cases h
      | some t =>
        rw [hd] at h
        have h2 : some (s :: t) = some r := h
        cases h2
        obtain ⟨d2, s2, y, w, ht, hd2, h1, h2, hs2, hy4, hyd, hw⟩ :=
          matchD2SepYear_sound hd
        exact ⟨s, t, w, rfl, hsep, ⟨d2, s2, y, ht, hd2, h1, h2, hs2, hy4, hyd⟩,
          by rw [List.cons_append, ← hw]⟩

/-- `matchDate` soundness: the captured token is a well-formed date token
and a prefix of the input. -/
theorem matchDate_sound : ∀ {l d : List Char}, matchDate l = some d →
    DateShape d ∧ ∃ w, l = d ++ w := by
  intro l d h
  match l with
  | [] => cases h
  | [a] => simp [matchDate] at h
  | a :: b :: rest =>
    simp only [matchDate] at h
    cases hda : isDigitC a
    · simp [hda] at h
    · simp only [hda, if_true] at h
      cases hdb : isDigitC b
      · simp only [hdb, Bool.false_eq_true, if_false] at h
        cases hsr : matchSepRest (b :: rest) with
        | none => rw [hsr] at h; cases h
        | some t =>
          rw [hsr] at h
          have h2 : some (a :: t) = some d := h
          cases h2
          obtain ⟨s1, t', w, ht, hs1, ⟨d2, s2, y, ht', hd2, h1, h2, hs2, hy4, hyd⟩,
            hw⟩ := matchSepRest_sound hsr
          refine ⟨⟨[a], s1, d2, s2, y, ?_, ?_, by simp, by simp, hs1, hd2,
            h1, h2, hs2, hy4, hyd⟩, w, by rw [List.cons_append, ← hw]⟩
          · rw [ht, ht']; rfl
          · intro c hc
            rcases (by simpa using hc : c = a) with rfl
            exact hda
      · simp only [hdb, if_true] at h
        cases hsr : matchSepRest rest with
        | some t =>
          rw [hsr] at h
          have h2 : some (a :: b :: t) = some d := h
          cases h2
          obtain ⟨s1, t', w, ht, hs1, ⟨d2, s2, y, ht', hd2, h1, h2, hs2, hy4, hyd⟩,
            hw⟩ := matchSepRest_sound hsr
          refine ⟨⟨[a, b], s1, d2, s2, y, ?_, ?_, by simp, by simp, hs1, hd2,
            h1, h2, hs2, hy4, hyd⟩, w, ?_⟩
          · rw [ht, ht']; rfl
          · intro c hc
            rcases (by simpa using hc : c = a ∨ c = b) with rfl | rfl
            exacts [hda, hdb]
          · show a :: b :: rest = a :: b :: t ++ w
            rw [hw]; rfl
        | none =>
          rw [hsr] at h
          cases hsr2 : matchSepRest (b :: rest) with
          | none => rw [hsr2] at h; cases h
          | some t =>
            rw [hsr2] at h
            have h2 : some (a :: t) = some d := h
            cases h2
            obtain ⟨s1, t', w, ht, hs1, ⟨d2, s2, y, ht', hd2, h1, h2, hs2, hy4,
              hyd⟩, hw⟩ := matchSepRest_sound hsr2
            refine ⟨⟨[a], s1, d2, s2, y, ?_, ?_, by simp, by simp, hs1, hd2,
              h1, h2, hs2, hy4, hyd⟩, w, by rw [List.cons_append, ← hw]⟩
            · rw [ht, ht']; rfl
            · intro c hc
              rcases (by simpa using hc : c = a) with rfl
              exact hda

/-- `matchYear` completeness. -/
theorem matchYear_complete {y : List Char} (hy4 : y.length = 4)
    (hyd : ∀ c ∈ y, isDigitC c = true) (w : List Char) :
    ∃ r, matchYear (y ++ w) = some r := by
  rcases y with _ | ⟨y1, y⟩
  · simp at hy4
  rcases y with _ | ⟨y2, y⟩
  · simp at hy4
  rcases y with _ | ⟨y3, y⟩
  · simp at hy4
  rcases y with _ | ⟨y4, y⟩
  · simp at hy4
  have hnil : y = [] := by
    simp only [List.length_cons] at hy4
    exact List.eq_nil_of_length_eq_zero (by omega)
  subst hnil
  refine ⟨[y1, y2, y3, y4], ?_⟩
  show matchYear (y1 :: y2 :: y3 :: y4 :: w) = some [y1, y2, y3, y4]
  simp [matchYear, hyd y1 (by simp), hyd y2 (by simp), hyd y3 (by simp),
    hyd y4 (by simp)]

/-- `matchSepYear` completeness. -/
theorem matchSepYear_complete {s : Char} {y : List Char} (hs : isSepC s = true)
    (hy4 : y.length = 4) (hyd : ∀ c ∈ y, isDigitC c = true) (w : List Char) :
    ∃ r, matchSepYear (s :: (y ++ w)) = some r := by
  obtain ⟨r, hr⟩ := matchYear_complete hy4 hyd w
  exact ⟨s :: r, by simp [matchSepYear, hs, hr]⟩

/-- `matchD2SepYear` completeness. -/
theorem matchD2SepYear_complete {d2 : List Char} {s2 : Char} {y : List Char}
    (hd2 : ∀ c ∈ d2, isDigitC c = true) (h1 : 1 ≤ d2.length)
    (h2 : d2.length ≤ 2) (hs2 : isSepC s2 = true) (hy4 : y.length = 4)
    (hyd : ∀ c ∈ y, isDigitC c = true) (w : List Char) :
    ∃ r, matchD2SepYear (d2 ++ s2 :: (y ++ w)) = some r := by
  obtain ⟨r, hr⟩ := matchSepYear_complete hs2 hy4 hyd w
  rcases d2 with _ | ⟨c, d2'⟩
  · simp at h1
  rcases d2' with _ | ⟨e, d2''⟩
  · refine ⟨c :: r, ?_⟩
    show matchD2SepYear (c :: s2 :: (y ++ w)) = some (c :: r)
    simp [matchD2SepYear, hd2 c (by simp), sep_not_digit hs2, hr]
  · rcases d2'' with _ | ⟨f, _⟩
    · refine ⟨c :: e :: r, ?_⟩
      show matchD2SepYear (c :: e :: (s2 :: (y ++ w))) = some (c :: e :: r)
      simp [matchD2SepYear, hd2 c (by simp), hd2 e (by simp), hr]
    · simp at h2

/-- `matchSepRest` completeness. -/
theorem matchSepRest_complete {s1 : Char} {d2 : List Char} {s2 : Char}
    {y : List Char} (hs1 : isSepC s1 = true)
    (hd2 : ∀ c ∈ d2, isDigitC c = true) (h1 : 1 ≤ d2.length)
    (h2 : d2.length ≤ 2) (hs2 : isSepC s2 = true) (hy4 : y.length = 4)
    (hyd : ∀ c ∈ y, isDigitC c = true) (w : List Char) :
    ∃ r, matchSepRest (s1 :: (d2 ++ s2 :: (y ++ w))) = some r := by
  obtain ⟨r, hr⟩ := matchD2SepYear_complete hd2 h1 h2 hs2 hy4 hyd w
  exact ⟨s1 :: r, by simp [matchSepRest, hs1, hr]⟩

/-- `matchDate` completeness: a well-formed date token at the head always
matches, whatever follows. -/
theorem matchDate_complete {d : List Char} (hshape : DateShape d)
    (w : List Char) : ∃ r, matchDate (d ++ w) = some r := by
  obtain ⟨d1, s1, d2, s2, y, rfl, hd1, h1, h2, hs1, hd2, h3, h4, hs2, hy4, hyd⟩ :=
    hshape
  obtain ⟨r, hr⟩ := matchSepRest_complete hs1 hd2 h3 h4 hs2 hy4 hyd w
  have hassoc : (d2 ++ s2 :: y) ++ w = d2 ++ s2 :: (y ++ w) := by
    simp [List.append_assoc]
  rcases d1 with _ | ⟨c, d1'⟩
  · simp at h1
  rcases d1' with _ | ⟨e, d1''⟩
  · refine ⟨c :: r, ?_⟩
    show matchDate (c :: (s1 :: (d2 ++ s2 :: y) ++ w)) = some (c :: r)
    have hform : s1 :: (d2 ++ s2 :: y) ++ w = s1 :: (d2 ++ s2 :: (y ++ w)) := by
      rw [List.cons_append, hassoc]
    rw [hform]
    simp [matchDate, hd1 c (by simp), sep_not_digit hs1, hr]
  · rcases d1'' with _ | ⟨f, _⟩
    · refine ⟨c :: e :: r, ?_⟩
      show matchDate (c :: e :: (s1 :: (d2 ++ s2 :: y) ++ w)) = some (c :: e :: r)
      have hform : s1 :: (d2 ++ s2 :: y) ++ w = s1 :: (d2 ++ s2 :: (y ++ w)) := by
        rw [List.cons_append, hassoc]
      rw [hform]
      simp [matchDate, hd1 c (by simp), hd1 e (by simp), hr]
    · simp at h2

/-- `findDateLazy` soundness: a capture splits the input into a
newline-free gap, the well-formed token, and a remainder. -/
theorem findDateLazy_sound : ∀ {l d : List Char}, findDateLazy l = some d →
    ∃ v w, l = v ++ d ++ w ∧ (∀ c ∈ v, c ≠ '\n') ∧ DateShape d := by
  intro l
  induction l with
  | nil => intro d h; cases h
  | cons c rest ih =>
    intro d h
    simp only [findDateLazy] at h
    cases hm : matchDate (c :: rest) with
    | some dm =>
      rw [hm] at h
      have h2 : some dm = some d := h
      cases h2
      obtain ⟨hshape, w, hw⟩ := matchDate_sound hm
      exact ⟨[], w, by rw [hw]; rfl, by simp, hshape⟩
    | none =>
      rw [hm] at h
      by_cases hnl : c = '\n'
      · rw [if_pos hnl] at h; cases h
      · rw [if_neg hnl] at h
        obtain ⟨v, w, hvw, hv, hshape⟩ := ih h
        refine ⟨c :: v, w, by rw [List.cons_append, List.cons_append, ← hvw],
          ?_, hshape⟩
        intro x hx
        rcases List.mem_cons.1 hx with rfl | hx'
        · exact hnl
        · exact hv x hx'

/-- `findDateLazy` completeness: a well-formed token after a newline-free
gap is always found. -/
theorem findDateLazy_complete : ∀ (v : List Char) {d : List Char}
    (w : List Char), (∀ c ∈ v, c ≠ '\n') → DateShape d →
    ∃ r, findDateLazy (v ++ d ++ w) = some r
  | [], d, w, _, hshape => by
    obtain ⟨r, hr⟩ := matchDate_complete hshape w
    obtain ⟨d1, s1, d2, s2, y, hd, hd1, h1, hrest⟩ := hshape
    rcases d with _ | ⟨c, rest⟩
    · exfalso
      rcases d1 with _ | _
      · simp at h1
      · simp at hd
    · refine ⟨r, ?_⟩
      show findDateLazy (c :: (rest ++ w)) = some r
      have hr2 : matchDate (c :: (rest ++ w)) = some r := hr
      simp only [findDateLazy]
      rw [hr2]
  | c :: v, d, w, hv, hshape => by
    obtain ⟨r, hr⟩ :=
      findDateLazy_complete v w (fun x hx => hv x (List.mem_cons_of_mem _ hx))
        hshape
    cases hm : matchDate (c :: (v ++ d ++ w)) with
    | some dm =>
      refine ⟨dm, ?_⟩
      show findDateLazy (c :: (v ++ d ++ w)) = some dm
      simp only [findDateLazy]
      rw [hm]
    | none =>
      refine ⟨r, ?_⟩
      show findDateLazy (c :: (v ++ d ++ w)) = some r
      simp only [findDateLazy]
      rw [hm, if_neg (hv c (List.mem_cons_self _ _))]
      exact hr

/-- The Bool prefix test is prefix decomposition. -/
theorem isPfxL_iff : ∀ {p l : List Char}, isPfxL p l = true ↔ ∃ w, l = p ++ w := by
  intro p
  induction p with
  | nil =>
    intro l
    constructor
    · intro _; exact ⟨l, rfl⟩
    · intro _; rfl
  | cons a pa ih =>
    intro l
    cases l with
    | nil =>
      constructor
      · intro h
        simp [isPfxL] at h
      · rintro ⟨w, hw⟩
        cases hw
    | cons b lb =>
      simp only [isPfxL, Bool.and_eq_true, beq_iff_eq]
      constructor
      · rintro ⟨rfl, hp⟩
        obtain ⟨w, rfl⟩ := ih.1 hp
        exact ⟨w, rfl⟩
      · rintro ⟨w, hw⟩
        injection hw with hb hl
        exact ⟨hb.symm, ih.2 ⟨w, hl⟩⟩

/-- `searchAGM` soundness: a capture exhibits the phrase, a newline-free
gap, and the well-formed date token inside the text. -/
theorem searchAGM_sound : ∀ {l d : List Char}, searchAGM l = some d →
    ∃ u v w, l = u ++ agmPhrase ++ v ++ d ++ w ∧ (∀ c ∈ v, c ≠ '\n') ∧
      DateShape d := by
  intro l
  induction l with
  | nil => intro d h; cases h
  | cons c rest ih =>
    intro d h
    simp only [searchAGM] at h
    by_cases hp : isPfxL agmPhrase (c :: rest) = true
    · rw [if_pos hp] at h
      obtain ⟨tail, htail⟩ := isPfxL_iff.1 hp
      cases hf : findDateLazy ((c :: rest).drop agmPhrase.length) with
      | some dm =>
        rw [hf] at h
        have h2 : some dm = some d := h
        cases h2
        have hdrop : (c :: rest).drop agmPhrase.length = tail := by
          rw [htail]
          exact List.drop_left _ _
        rw [hdrop] at hf
        obtain ⟨v, w, hvw, hv, hshape⟩ := findDateLazy_sound hf
        refine ⟨[], v, w, ?_, hv, hshape⟩
        rw [htail, hvw]
        simp [List.append_assoc]
      | none =>
        rw [hf] at h
        obtain ⟨u, v, w, hrest, hv, hshape⟩ := ih h
        refine ⟨c :: u, v, w, ?_, hv, hshape⟩
        rw [hrest]
        simp [List.append_assoc]
    · rw [if_neg hp] at h
      obtain ⟨u, v, w, hrest, hv, hshape⟩ := ih h
      refine ⟨c :: u, v, w, ?_, hv, hshape⟩
      rw [hrest]
      simp [List.append_assoc]

/-- A search step on any text whose head position does not complete a match
preserves success, and success further right is preserved. -/
theorem searchAGM_cons_isSome {rest : List Char} (c : Char)
    (h : (searchAGM rest).isSome = true) :
    (searchAGM (c :: rest)).isSome = true := by
  simp only [searchAGM]
  by_cases hp : isPfxL agmPhrase (c :: rest) = true
  · rw [if_pos hp]
    cases hf : findDateLazy ((c :: rest).drop agmPhrase.length)
    · exact h
    · rfl
  · rw [if_neg hp]
    exact h

/-- Where the phrase matches and the lazy date search succeeds, so does the
whole search. -/
theorem searchAGM_cons_pfx {c : Char} {rest : List Char}
    (hp : isPfxL agmPhrase (c :: rest) = true) {d : List Char}
    (hf : findDateLazy ((c :: rest).drop agmPhrase.length) = some d) :
    searchAGM (c :: rest) = some d := by
  simp only [searchAGM]
  rw [if_pos hp, hf]

/-- The search at an exact phrase occurrence returns the lazily-found
date. -/
theorem searchAGM_phrase (X : List Char) {d : List Char}
    (hf : findDateLazy X = some d) : searchAGM (agmPhrase ++ X) = some d := by
  have hagm : agmPhrase = 'a' :: "nnual general meeting".data := rfl
  have hform : agmPhrase ++ X = 'a' :: ("nnual general meeting".data ++ X) := by
    rw [hagm, List.cons_append]
  rw [hform]
  apply searchAGM_cons_pfx
  · exact isPfxL_iff.2 ⟨X, hform.symm⟩
  · have hdrop : ('a' :: ("nnual general meeting".data ++ X)).drop
        agmPhrase.length = X := by
      rw [← hform]
      exact List.drop_left _ _
    rw [hdrop]
    exact hf

/-- `searchAGM` completeness: whenever the phrase, a newline-free gap and a
well-formed date token occur in the text, the search succeeds. -/
theorem searchAGM_complete : ∀ (u v d w : List Char),
    (∀ c ∈ v, c ≠ '\n') → DateShape d →
    (searchAGM (u ++ agmPhrase ++ v ++ d ++ w)).isSome = true
  | [], v, d, w, hv, hshape => by
    obtain ⟨r, hr⟩ := findDateLazy_complete v w hv hshape
    have hform : [] ++ agmPhrase ++ v ++ d ++ w
        = agmPhrase ++ (v ++ d ++ w) := by
      simp [List.append_assoc]
    rw [hform, searchAGM_phrase _ hr]
    rfl
  | c :: u, v, d, w, hv, hshape => by
    have hform : (c :: u) ++ agmPhrase ++ v ++ d ++ w
        = c :: (u ++ agmPhrase ++ v ++ d ++ w) := by
      simp [List.append_assoc]
    rw [hform]
    exact searchAGM_cons_isSome c (searchAGM_complete u v d w hv hshape)

/-- C8 (amended): `agm_conducted` is true exactly when the lowered text
contains the phrase "annual general meeting" followed, after newline-free
intervening text, by a date token of 1-2 digits, a slash-or-hyphen
separator, 1-2 digits, another such separator, and 4 digits; when a date is
reported it is such a token, placed after such an occurrence of the phrase;
and `agm_date` is present exactly when `agm_conducted` is true. -/
theorem agm_extraction (t : String) :
    ((extract_contextual_information t).agm_conducted = true ↔
      ∃ u v d w, lowerL t.data = u ++ agmPhrase ++ v ++ d ++ w ∧
        (∀ c ∈ v, c ≠ '\n') ∧ isDateTokL d = true) ∧
    (∀ s, (extract_contextual_information t).agm_date = some s →
      isDateTokL s.data = true ∧
      ∃ u v w, lowerL t.data = u ++ agmPhrase ++ v ++ s.data ++ w ∧
        ∀ c ∈ v, c ≠ '\n') ∧
    ((extract_contextual_information t).agm_conducted = false ↔
      (extract_contextual_information t).agm_date = none) := by
  have hcond : (extract_contextual_information t).agm_conducted
      = (searchAGM (lowerL t.data)).isSome := rfl
  have hdate : (extract_contextual_information t).agm_date
      = (searchAGM (lowerL t.data)).map (fun l => (⟨l⟩ : String)) := rfl
  refine ⟨⟨?_, ?_⟩, ?_, ?_⟩
  · intro h
    rw [hcond] at h
    cases hs : searchAGM (lowerL t.data) with
    | none => rw [hs] at h; cases h
    | some d =>
      obtain ⟨u, v, w, he, hv, hshape⟩ := searchAGM_sound hs
      exact ⟨u, v, d, w, he, hv, isDateTokL_iff_shape.2 hshape⟩
  · rintro ⟨u, v, d, w, he, hv, htok⟩
    rw [hcond, he]
    exact searchAGM_complete u v d w hv (isDateTokL_iff_shape.1 htok)
  · intro s hsome
    rw [hdate] at hsome
    cases hs : searchAGM (lowerL t.data) with
    | none => rw [hs] at hsome; cases hsome
    | some d =>
      rw [hs] at hsome
      have h2 : some (⟨d⟩ : String) = some s := hsome
      have hsd : s.data = d := by
        have h3 := Option.some.inj h2
        rw [← h3]
      obtain ⟨u, v, w, he, hv, hshape⟩ := searchAGM_sound hs
      rw [hsd]
      exact ⟨isDateTokL_iff_shape.2 hshape, u, v, w, he, hv⟩
  · rw [hcond, hdate]
    cases searchAGM (lowerL t.data) <;> simp

/-- C8 (counterexample to the claim as stated): with a newline as the
intervening text — "annual general meeting\n12/05/2023" — the phrase is
followed by a date token, yet the search fails (`.` in the lazy gap does
not match a newline), so `agm_conducted` is false. -/
theorem agm_extraction_counterexample :
    (extract_contextual_information
      "annual general meeting\n12/05/2023").agm_conducted = false ∧
    lowerL ("annual general meeting\n12/05/2023" : String).data
      = [] ++ agmPhrase ++ ['\n'] ++ ("12/05/2023" : String).data ++ [] ∧
    isDateTokL ("12/05/2023" : String).data = true :=
  ⟨by decide, by decide, by decide⟩

/-- C8 witness: the claim's own example — the date after "Annual General
Meeting held on" is found and reported verbatim. -/
theorem agm_extraction_witness :
    isDateTokL ("12/05/2023" : String).data = true ∧
    ∃ u v w, lowerL ("Annual General Meeting held on 12/05/2023" : String).data
        = u ++ agmPhrase ++ v ++ ("12/05/2023" : String).data ++ w ∧
      ∀ c ∈ v, c ≠ '\n' :=
  (agm_extraction "Annual General Meeting held on 12/05/2023").2.1
    "12/05/2023" (by decide)

/-! ### C9: the summary formatter has no defaulting -/

/-- One-step child lookup on a JSON value (no error reporting). -/
def jget : JVal → String → Option JVal
  | .obj kvs, k => jlookup kvs k
  | _, _ => none

/-- Nested lookup along a key path. -/
def getPath : JVal → List String → Option JVal
  | d, [] => some d
  | d, k :: ks =>
    match jget d k with
    | some v => getPath v ks
    | none => none

/-- The expected shape of an input document, per the §6 requirement list:
every required nested key reachable, `appointment_nature` a string (it is
lower-cased), `form_filing_date` a string with at least one
whitespace-separated token (it is split and indexed), and
`compliance_sections` indexable at 0 — a non-empty array, or (a Python
quirk the code inherits) a non-empty string. -/
def requiredShape (d : JVal) : Bool :=
  (getPath d ["structured_data", "company_information", "name"]).isSome &&
  (getPath d ["structured_data", "company_information", "cin"]).isSome &&
  (getPath d ["structured_data", "auditor_information", "firm_name"]).isSome &&
  (getPath d ["structured_data", "auditor_information", "pan"]).isSome &&
  (getPath d ["structured_data", "auditor_information", "joint_appointment"]).isSome &&
  (getPath d ["structured_data", "appointment_details", "audit_period_start"]).isSome &&
  (getPath d ["structured_data", "appointment_details", "audit_period_end"]).isSome &&
  (getPath d ["structured_data", "appointment_details", "financial_years_count"]).isSome &&
  (match getPath d ["structured_data", "summary_context", "appointment_nature"] with
   | some (JVal.str _) => true
   | _ => false) &&
  (match getPath d ["structured_data", "summary_context", "compliance_sections"] with
   | some (JVal.list (_ :: _)) => true
   | some (JVal.str s) => s != ""
   | _ => false) &&
  (match getPath d ["structured_data", "compliance_information", "form_filing_date"] with
   | some (JVal.str s) => !(splitWsL s.data).isEmpty
   | _ => false) &&
  (getPath d ["structured_data", "compliance_information", "certificate_serial"]).isSome

/-- `isOk` through a successful bind. -/
theorem isOk_bind_ok {α β : Type} {x : Except String α} {a : α}
    (h : x = .ok a) (f : α → Except String β) : (x >>= f).isOk = (f a).isOk := by
  rw [h]; rfl

/-- `isOk` through a failing bind. -/
theorem isOk_bind_err {α β : Type} {x : Except String α} {e : String}
    (h : x = .error e) (f : α → Except String β) : (x >>= f).isOk = false := by
  rw [h]; rfl

/-- A successful `getItem` is a successful `jget`. -/
theorem getItem_ok {v : JVal} {k : String} {x : JVal}
    (h : v.getItem k = .ok x) : jget v k = some x := by
  cases v with
  | obj kvs =>
    simp only [JVal.getItem] at h
    cases hl : jlookup kvs k with
    | none => rw [hl] at h; cases h
    | some y =>
      rw [hl] at h
      have h2 : Except.ok (ε := String) y = .ok x := h
      cases h2
      exact hl
  | str s => cases h
  | bool b => cases h
  | list l => cases h

/-- A failing `getItem` is a failing `jget`. -/
theorem getItem_err {v : JVal} {k : String} {e : String}
    (h : v.getItem k = .error e) : jget v k = none := by
  cases v with
  | obj kvs =>
    simp only [JVal.getItem] at h
    cases hl : jlookup kvs k with
    | none => show jlookup kvs k = none; exact hl
    | some y => rw [hl] at h; cases h
  | str s => rfl
  | bool b => rfl
  | list l => rfl

/-- A successful `strE` exhibits the string. -/
theorem strE_ok {v : JVal} {s : String} (h : v.strE = .ok s) : v = .str s := by
  cases v with
  | str t =>
    have h2 : Except.ok (ε := String) t = .ok s := h
    cases h2
    rfl
  | bool b => cases h
  | list l => cases h
  | obj o => cases h

/-- A successful `lowerE` shows the value is a string. -/
theorem lowerE_ok {v : JVal} {s : String} (h : v.lowerE = .ok s) :
    ∃ n, v = JVal.str n := by
  cases v with
  | str t => exact ⟨t, rfl⟩
  | bool b => cases h
  | list l => cases h
  | obj o => cases h

/-- A failing first-token extraction means no tokens. -/
theorem firstTokE_err {s e : String} (h : firstTokE s = .error e) :
    splitWsL s.data = [] := by
  unfold firstTokE at h
  cases hs : splitWsL s.data with
  | nil => rfl
  | cons t ts => rw [hs] at h; cases h

/-- A successful first-token extraction means some token. -/
theorem firstTokE_ok {s t : String} (h : firstTokE s = .ok t) :
    (splitWsL s.data).isEmpty = false := by
  unfold firstTokE at h
  cases hs : splitWsL s.data with
  | nil => rw [hs] at h; cases h
  | cons u us => rfl

/-- `isOk` through a bind on a successful value. -/
theorem isOk_ok_bind {α β : Type} (a : α) (f : α → Except String β) :
    ((Except.ok a : Except String α) >>= f).isOk = (f a).isOk := rfl

/-- `isOk` through a bind on an error. -/
theorem isOk_err_bind {α β : Type} (e : String) (f : α → Except String β) :
    ((Except.error e : Except String α) >>= f).isOk = false := rfl

/-- C9: `generate_summary` performs no defaulting — it succeeds exactly on
documents of the required shape (every required nested key present with the
expected form; in particular an empty `compliance_sections` list, a missing
key anywhere on a required path, a non-string `appointment_nature` or
`form_filing_date`, or a whitespace-only `form_filing_date` is a hard error
surfaced to the caller, never recovered). -/
theorem generate_summary_no_defaulting (d : JVal) :
    (generate_summary d).isOk = requiredShape d := by
  unfold generate_summary
  cases hsd : d.getItem "structured_data" with
  | error e =>
    rw [isOk_err_bind]
    symm
    simp [requiredShape, getPath, getItem_err hsd]
  | ok sd =>
    rw [isOk_ok_bind]
    cases hco : sd.getItem "company_information" with
    | error e =>
      rw [isOk_err_bind]
      symm
      simp [requiredShape, getPath, getItem_ok hsd, getItem_err hco]
    | ok company =>
      rw [isOk_ok_bind]
      cases hau : sd.getItem "auditor_information" with
      | error e =>
        rw [isOk_err_bind]
        symm
        simp [requiredShape, getPath, getItem_ok hsd, getItem_ok hco, getItem_err hau]
      | ok auditor =>
        rw [isOk_ok_bind]
        cases hap : sd.getItem "appointment_details" with
        | error e =>
          rw [isOk_err_bind]
          symm
          simp [requiredShape, getPath, getItem_ok hsd, getItem_ok hco, getItem_ok hau, getItem_err hap]
        | ok appointment =>
          rw [isOk_ok_bind]
          cases hcp : sd.getItem "compliance_information" with
          | error e =>
            rw [isOk_err_bind]
            symm
            simp [requiredShape, getPath, getItem_ok hsd, getItem_ok hco, getItem_ok hau, getItem_ok hap, getItem_err hcp]
          | ok compliance =>
            rw [isOk_ok_bind]
            cases hcx : sd.getItem "summary_context" with
            | error e =>
              rw [isOk_err_bind]
              symm
              simp [requiredShape, getPath, getItem_ok hsd, getItem_ok hco, getItem_ok hau, getItem_ok hap, getItem_ok hcp, getItem_err hcx]
            | ok ctx =>
              rw [isOk_ok_bind]
              cases hffd : compliance.getItem "form_filing_date" with
              | error e =>
                rw [isOk_err_bind]
                symm
                simp [requiredShape, getPath, getItem_ok hsd, getItem_ok hco, getItem_ok hau, getItem_ok hap, getItem_ok hcp, getItem_ok hcx, getItem_err hffd]
              | ok ffd =>
                rw [isOk_ok_bind]
                cases hffs : ffd.strE with
                | error e =>
                  rw [isOk_err_bind]
                  symm
                  cases ffd with
                  | str s => simp [JVal.strE] at hffs
                  | bool b => simp [requiredShape, getPath, getItem_ok hsd, getItem_ok hco, getItem_ok hau, getItem_ok hap, getItem_ok hcp, getItem_ok hcx, getItem_ok hffd]
                  | list l => simp [requiredShape, getPath, getItem_ok hsd, getItem_ok hco, getItem_ok hau, getItem_ok hap, getItem_ok hcp, getItem_ok hcx, getItem_ok hffd]
                  | obj o => simp [requiredShape, getPath, getItem_ok hsd, getItem_ok hco, getItem_ok hau, getItem_ok hap, getItem_ok hcp, getItem_ok hcx, getItem_ok hffd]
                | ok ffdStr =>
                  rw [isOk_ok_bind]
                  obtain rfl := strE_ok hffs
                  cases hft : firstTokE ffdStr with
                  | error e =>
                    rw [isOk_err_bind]
                    symm
                    simp [requiredShape, getPath, getItem_ok hsd, getItem_ok hco, getItem_ok hau, getItem_ok hap, getItem_ok hcp, getItem_ok hcx, getItem_ok hffd, firstTokE_err hft]
                  | ok ftok =>
                    rw [isOk_ok_bind]
                    cases hna : company.getItem "name" with
                    | error e =>
                      rw [isOk_err_bind]
                      symm
                      simp [requiredShape, getPath, getItem_ok hsd, getItem_ok hco, getItem_ok hau, getItem_ok hap, getItem_ok hcp, getItem_ok hcx, getItem_ok hffd, firstTokE_ok hft, getItem_err hna]
                    | ok vname =>
                      rw [isOk_ok_bind]
                      cases hci : company.getItem "cin" with
                      | error e =>
                        rw [isOk_err_bind]
                        symm
                        simp [requiredShape, getPath, getItem_ok hsd, getItem_ok hco, getItem_ok hau, getItem_ok hap, getItem_ok hcp, getItem_ok hcx, getItem_ok hffd, firstTokE_ok hft, getItem_ok hna, getItem_err hci]
                      | ok vcin =>
                        rw [isOk_ok_bind]
                        cases hfi : auditor.getItem "firm_name" with
                        | error e =>
                          rw [isOk_err_bind]
                          symm
                          simp [requiredShape, getPath, getItem_ok hsd, getItem_ok hco, getItem_ok hau, getItem_ok hap, getItem_ok hcp, getItem_ok hcx, getItem_ok hffd, firstTokE_ok hft, getItem_ok hna, getItem_ok hci, getItem_err hfi]
                        | ok vfirm =>
                          rw [isOk_ok_bind]
                          cases hpa : auditor.getItem "pan" with
                          | error e =>
                            rw [isOk_err_bind]
                            symm
                            simp [requiredShape, getPath, getItem_ok hsd, getItem_ok hco, getItem_ok hau, getItem_ok hap, getItem_ok hcp, getItem_ok hcx, getItem_ok hffd, firstTokE_ok hft, getItem_ok hna, getItem_ok hci, getItem_ok hfi, getItem_err hpa]
                          | ok vpan =>
                            rw [isOk_ok_bind]
                            cases hnat : ctx.getItem "appointment_nature" with
                            | error e =>
                              rw [isOk_err_bind]
                              symm
                              simp [requiredShape, getPath, getItem_ok hsd, getItem_ok hco, getItem_ok hau, getItem_ok hap, getItem_ok hcp, getItem_ok hcx, getItem_ok hffd, firstTokE_ok hft, getItem_ok hna, getItem_ok hci, getItem_ok hfi, getItem_ok hpa, getItem_err hnat]
                            | ok nature =>
                              rw [isOk_ok_bind]
                              cases hnl : nature.lowerE with
                              | error e =>
                                rw [isOk_err_bind]
                                symm
                                cases nature with
                                | str s => simp [JVal.lowerE] at hnl
                                | bool b => simp [requiredShape, getPath, getItem_ok hsd, getItem_ok hco, getItem_ok hau, getItem_ok hap, getItem_ok hcp, getItem_ok hcx, getItem_ok hffd, firstTokE_ok hft, getItem_ok hna, getItem_ok hci, getItem_ok hfi, getItem_ok hpa, getItem_ok hnat]
                                | list l => simp [requiredShape, getPath, getItem_ok hsd, getItem_ok hco, getItem_ok hau, getItem_ok hap, getItem_ok hcp, getItem_ok hcx, getItem_ok hffd, firstTokE_ok hft, getItem_ok hna, getItem_ok hci, getItem_ok hfi, getItem_ok hpa, getItem_ok hnat]
                                | obj o => simp [requiredShape, getPath, getItem_ok hsd, getItem_ok hco, getItem_ok hau, getItem_ok hap, getItem_ok hcp, getItem_ok hcx, getItem_ok hffd, firstTokE_ok hft, getItem_ok hna, getItem_ok hci, getItem_ok hfi, getItem_ok hpa, getItem_ok hnat]
                              | ok natLow =>
                                rw [isOk_ok_bind]
                                obtain ⟨n, rfl⟩ := lowerE_ok hnl
                                cases haps : appointment.getItem "audit_period_start" with
                                | error e =>
                                  rw [isOk_err_bind]
                                  symm
                                  simp [requiredShape, getPath, getItem_ok hsd, getItem_ok hco, getItem_ok hau, getItem_ok hap, getItem_ok hcp, getItem_ok hcx, getItem_ok hffd, firstTokE_ok hft, getItem_ok hna, getItem_ok hci, getItem_ok hfi, getItem_ok hpa, getItem_ok hnat, getItem_err haps]
                                | ok aps =>
                                  rw [isOk_ok_bind]
                                  cases hape : appointment.getItem "audit_period_end" with
                                  | error e =>
                                    rw [isOk_err_bind]
                                    symm
                                    simp [requiredShape, getPath, getItem_ok hsd, getItem_ok hco, getItem_ok hau, getItem_ok hap, getItem_ok hcp, getItem_ok hcx, getItem_ok hffd, firstTokE_ok hft, getItem_ok hna, getItem_ok hci, getItem_ok hfi, getItem_ok hpa, getItem_ok hnat, getItem_ok haps, getItem_err hape]
                                  | ok ape =>
                                    rw [isOk_ok_bind]
                                    cases hfyc : appointment.getItem "financial_years_count" with
                                    | error e =>
                                      rw [isOk_err_bind]
                                      symm
                                      simp [requiredShape, getPath, getItem_ok hsd, getItem_ok hco, getItem_ok hau, getItem_ok hap, getItem_ok hcp, getItem_ok hcx, getItem_ok hffd, firstTokE_ok hft, getItem_ok hna, getItem_ok hci, getItem_ok hfi, getItem_ok hpa, getItem_ok hnat, getItem_ok haps, getItem_ok hape, getItem_err hfyc]
                                    | ok fyc =>
                                      rw [isOk_ok_bind]
                                      cases hjo : auditor.getItem "joint_appointment" with
                                      | error e =>
                                        rw [isOk_err_bind]
                                        symm
                                        simp [requiredShape, getPath, getItem_ok hsd, getItem_ok hco, getItem_ok hau, getItem_ok hap, getItem_ok hcp, getItem_ok hcx, getItem_ok hffd, firstTokE_ok hft, getItem_ok hna, getItem_ok hci, getItem_ok hfi, getItem_ok hpa, getItem_ok hnat, getItem_ok haps, getItem_ok hape, getItem_ok hfyc, getItem_err hjo]
                                      | ok joint =>
                                        rw [isOk_ok_bind]
                                        cases hsec : ctx.getItem "compliance_sections" with
                                        | error e =>
                                          rw [isOk_err_bind]
                                          symm
                                          simp [requiredShape, getPath, getItem_ok hsd, getItem_ok hco, getItem_ok hau, getItem_ok hap, getItem_ok hcp, getItem_ok hcx, getItem_ok hffd, firstTokE_ok hft, getItem_ok hna, getItem_ok hci, getItem_ok hfi, getItem_ok hpa, getItem_ok hnat, getItem_ok haps, getItem_ok hape, getItem_ok hfyc, getItem_ok hjo, getItem_err hsec]
                                        | ok sections =>
                                          rw [isOk_ok_bind]
                                          cases hidx : sections.getIdx0 with
                                          | error e =>
                                            rw [isOk_err_bind]
                                            symm
                                            cases sections with
                                            | list l =>
                                              cases l with
                                              | nil => simp [requiredShape, getPath, getItem_ok hsd, getItem_ok hco, getItem_ok hau, getItem_ok hap, getItem_ok hcp, getItem_ok hcx, getItem_ok hffd, firstTokE_ok hft, getItem_ok hna, getItem_ok hci, getItem_ok hfi, getItem_ok hpa, getItem_ok hnat, getItem_ok haps, getItem_ok hape, getItem_ok hfyc, getItem_ok hjo, getItem_ok hsec]
                                              | cons a t => simp [JVal.getIdx0] at hidx
                                            | str s =>
                                              cases hsdta : s.data with
                                              | nil =>
                                                have hse : s = "" := strDataExt hsdta
                                                subst hse
                                                simp [requiredShape, getPath, getItem_ok hsd, getItem_ok hco, getItem_ok hau, getItem_ok hap, getItem_ok hcp, getItem_ok hcx, getItem_ok hffd, firstTokE_ok hft, getItem_ok hna, getItem_ok hci, getItem_ok hfi, getItem_ok hpa, getItem_ok hnat, getItem_ok haps, getItem_ok hape, getItem_ok hfyc, getItem_ok hjo, getItem_ok hsec]
                                              | cons c r => simp [JVal.getIdx0, hsdta] at hidx
                                            | bool b => simp [requiredShape, getPath, getItem_ok hsd, getItem_ok hco, getItem_ok hau, getItem_ok hap, getItem_ok hcp, getItem_ok hcx, getItem_ok hffd, firstTokE_ok hft, getItem_ok hna, getItem_ok hci, getItem_ok hfi, getItem_ok hpa, getItem_ok hnat, getItem_ok haps, getItem_ok hape, getItem_ok hfyc, getItem_ok hjo, getItem_ok hsec]
                                            | obj o => simp [requiredShape, getPath, getItem_ok hsd, getItem_ok hco, getItem_ok hau, getItem_ok hap, getItem_ok hcp, getItem_ok hcx, getItem_ok hffd, firstTokE_ok hft, getItem_ok hna, getItem_ok hci, getItem_ok hfi, getItem_ok hpa, getItem_ok hnat, getItem_ok haps, getItem_ok hape, getItem_ok hfyc, getItem_ok hjo, getItem_ok hsec]
                                          | ok sec0 =>
                                            rw [isOk_ok_bind]
                                            cases hser : compliance.getItem "certificate_serial" with
                                            | error e =>
                                              rw [isOk_err_bind]
                                              symm
                                              simp [requiredShape, getPath, getItem_ok hsd, getItem_ok hco, getItem_ok hau, getItem_ok hap, getItem_ok hcp, getItem_ok hcx, getItem_ok hffd, firstTokE_ok hft, getItem_ok hna, getItem_ok hci, getItem_ok hfi, getItem_ok hpa, getItem_ok hnat, getItem_ok haps, getItem_ok hape, getItem_ok hfyc, getItem_ok hjo, getItem_ok hsec, getItem_err hser]
                                            | ok serial =>
                                              rw [isOk_ok_bind]
                                              symm
                                              show requiredShape d = true
                                              cases sections with
                                              | list l =>
                                                cases l with
                                                | nil => simp [JVal.getIdx0] at hidx
                                                | cons a t => simp [requiredShape, getPath, getItem_ok hsd, getItem_ok hco, getItem_ok hau, getItem_ok hap, getItem_ok hcp, getItem_ok hcx, getItem_ok hffd, firstTokE_ok hft, getItem_ok hna, getItem_ok hci, getItem_ok hfi, getItem_ok hpa, getItem_ok hnat, getItem_ok haps, getItem_ok hape, getItem_ok hfyc, getItem_ok hjo, getItem_ok hsec, getItem_ok hser]
                                              | str s =>
                                                cases hsdta : s.data with
                                                | nil => simp [JVal.getIdx0, hsdta] at hidx
                                                | cons c r =>
                                                  have hne : s ≠ "" := by
                                                    intro e
                                                    rw [e] at hsdta
                                                    cases hsdta
                                                  simp [requiredShape, getPath, getItem_ok hsd, getItem_ok hco, getItem_ok hau, getItem_ok hap, getItem_ok hcp, getItem_ok hcx, getItem_ok hffd, firstTokE_ok hft, getItem_ok hna, getItem_ok hci, getItem_ok hfi, getItem_ok hpa, getItem_ok hnat, getItem_ok haps, getItem_ok hape, getItem_ok hfyc, getItem_ok hjo, getItem_ok hsec, getItem_ok hser, hne]
                                              | bool b => cases hidx
                                              | obj o => cases hidx

/-- A concrete, fully-populated summary document whose `form_filing_date`
value is the parameter `fd`; every other required key is present with the
expected shape. -/
def mkC10Doc (fd : String) : JVal :=
  JVal.obj [("structured_data", JVal.obj [
    ("company_information", JVal.obj
      [("name", JVal.str "Acme Ltd"), ("cin", JVal.str "C123")]),
    ("auditor_information", JVal.obj
      [("firm_name", JVal.str "XYZ & Co"), ("pan", JVal.str "P456"),
       ("joint_appointment", JVal.bool false)]),
    ("appointment_details", JVal.obj
      [("audit_period_start", JVal.str "01/04/2023"),
       ("audit_period_end", JVal.str "31/03/2024"),
       ("financial_years_count", JVal.str "1")]),
    ("compliance_information", JVal.obj
      [("form_filing_date", JVal.str fd),
       ("certificate_serial", JVal.str "S789")]),
    ("summary_context", JVal.obj
      [("appointment_nature", JVal.str "Casual Vacancy"),
       ("compliance_sections", JVal.list [JVal.str "Section 139"])])])]

/-- The paragraph `generate_summary` produces on `mkC10Doc`, as a function of
the token interpolated for the filing date (the pieces follow the template
shape of `generate_summary`). -/
def c10Text (tok : String) : String :=
  "Acme Ltd" ++ " (CIN: " ++ "C123" ++ ") has appointed " ++
  "XYZ & Co" ++ " (PAN: " ++ "P456" ++ ") as auditors to fill a " ++
  "casual vacancy" ++ " . The appointment covers an audit period from " ++
  "01/04/2023" ++ " to " ++ "31/03/2024" ++ ", spanning " ++ "1" ++
  " financial years. This " ++ "" ++
  "appointment was formalized under " ++ "Section 139" ++
  " of the Companies Act, 2013, with the form filed on " ++ tok ++
  " (Certificate Serial: " ++ "S789" ++ ")."

set_option maxRecDepth 8192 in
/-- On the concrete document, the whole pipeline reduces to the filing-date
extraction. -/
theorem mkC10Doc_eval (fd : String) :
    generate_summary (mkC10Doc fd) =
      (firstTokE fd).bind (fun tok => Except.ok (c10Text tok)) := rfl

/-- C10: the summary formatter truncates `form_filing_date` at the first
whitespace before interpolating it: on a fully-populated document the output
is the fixed paragraph containing only the first whitespace-separated token
of the filing date (so the sentinel value 'Not specified' is rendered as
'Not'), and an empty or whitespace-only filing date makes `generate_summary`
raise even though every other required key is present. -/
theorem filing_date_truncation :
    (∀ (fd : String) (t : List Char) (ts : List (List Char)),
        splitWsL fd.data = t :: ts →
        generate_summary (mkC10Doc fd) = Except.ok (c10Text ⟨t⟩)) ∧
    (∀ fd : String, splitWsL fd.data = [] →
        (generate_summary (mkC10Doc fd)).isOk = false) := by
  constructor
  · intro fd t ts h
    rw [mkC10Doc_eval]
    unfold firstTokE
    rw [h]
    rfl
  · intro fd h
    rw [mkC10Doc_eval]
    unfold firstTokE
    rw [h]
    rfl

theorem filing_date_truncation_witness :
    generate_summary (mkC10Doc "Not specified") = Except.ok (c10Text "Not") ∧
    (generate_summary (mkC10Doc " ")).isOk = false := by
  constructor
  · exact filing_date_truncation.1 "Not specified" "Not".data
      ["specified".data] (by decide)
  · exact filing_date_truncation.2 " " (by decide)

end FormSummary
